import Mathlib

/-!
Shallow embedding of the tari-dan validator-node consensus engine
(`dan_layer/consensus/src/hotstuff/on_receive_proposal.rs`), the mempool
executor (`p2p/services/mempool/executor.rs`) and the gossip services
(`p2p/services/consensus_gossip/service.rs`, `p2p/services/mempool/gossip.rs`).

Identifiers (block ids, transaction ids, epochs, heights, shard ids, QC ids,
substate ids) are modelled as `Nat`.  The state store is an explicit record of
association lists; store operations whose implementation lives outside the
embedded sources (the `tari_dan_storage` consensus models) are modelled from
the specification and marked as such in their doc comments.
-/

set_option autoImplicit false

namespace TariDan

/-- Transaction decision: `Commit` or `Abort`. -/
inductive Decision where
  | commit
  | abort
deriving DecidableEq, Repr

/-- `Decision::is_commit`. -/
def Decision.isCommit : Decision → Bool
  | .commit => true
  | .abort => false

/-- `Decision::is_abort`. -/
def Decision.isAbort : Decision → Bool
  | .commit => false
  | .abort => true

/-- Block-level vote decision (`QuorumDecision`). -/
inductive QuorumDecision where
  | accept
  | reject
deriving DecidableEq, Repr

/-- A transaction id together with the decision the leader proposed for it
(the payload of every `Command` variant). -/
structure TransactionAtom where
  id : Nat
  decision : Decision
deriving DecidableEq, Repr

/-- `Command`: one step of the per-transaction two-phase-commit protocol. -/
inductive Command where
  | prepare (t : TransactionAtom)
  | localPrepared (t : TransactionAtom)
  | accept (t : TransactionAtom)
deriving DecidableEq, Repr

/-- `Command::transaction_id`. -/
def Command.transactionId : Command → Nat
  | .prepare t => t.id
  | .localPrepared t => t.id
  | .accept t => t.id

/-- `Command::decision`. -/
def Command.decision : Command → Decision
  | .prepare t => t.decision
  | .localPrepared t => t.decision
  | .accept t => t.decision

/-- `Command::local_prepared`: the payload when the command is `LocalPrepared`. -/
def Command.localPreparedAtom : Command → Option TransactionAtom
  | .localPrepared t => some t
  | _ => none

/-- Quorum certificate as used by the proposal handler: its own id (`qc.id()`),
the certified block id and height, and the epoch. -/
structure QuorumCertificate where
  qcId : Nat
  blockId : Nat
  blockHeight : Nat
  epoch : Nat
deriving DecidableEq, Repr

/-- `Block`: id, parent id, justify QC, epoch, height, proposer and command
list.  The invariant `id = hash of the remaining fields` is checked by
`validateProposedBlock`. -/
structure Block where
  id : Nat
  parent : Nat
  justify : QuorumCertificate
  epoch : Nat
  height : Nat
  proposer : Nat
  commands : List Command
deriving DecidableEq, Repr

/-- Cantor pairing, used to combine fields in the modelled block hash. -/
def mix (a b : Nat) : Nat :=
  (a + b) * (a + b + 1) / 2 + b

/-- Hash of a single command (variant tag, transaction id, decision). -/
def hashCommand : Command → Nat
  | .prepare t => mix 0 (mix t.id (if t.decision = .commit then 0 else 1))
  | .localPrepared t => mix 1 (mix t.id (if t.decision = .commit then 0 else 1))
  | .accept t => mix 2 (mix t.id (if t.decision = .commit then 0 else 1))

/-- Hash of a command list. -/
def hashCommands : List Command → Nat
  | [] => 3
  | c :: rest => mix (hashCommand c) (hashCommands rest)

/-- Modelled from the spec: `Block::calculate_hash`, the content hash of every
block field except `id` (`id == hash(epoch, parent, justify, height, proposer,
commands)`).  The concrete hash construction is not part of the embedded
sources; any fixed computable combination of the fields serves the model. -/
def Block.calculateHash (b : Block) : Nat :=
  mix b.epoch (mix b.parent (mix b.justify.qcId (mix b.justify.blockId
    (mix b.justify.blockHeight (mix b.justify.epoch
    (mix b.height (mix b.proposer (hashCommands b.commands))))))))

/-- The genesis sentinel block id (`BlockId::is_genesis`). -/
def genesisId : Nat := 0

/-- Transaction pool stage. -/
inductive TransactionPoolStage where
  | new
  | prepared
  | localPrepared
  | allPrepared
  | somePrepared
  | complete
deriving DecidableEq, Repr

/-- `TransactionPoolStage::is_new`. -/
def TransactionPoolStage.isNew : TransactionPoolStage → Bool
  | .new => true
  | _ => false

/-- `TransactionPoolStage::is_complete`. -/
def TransactionPoolStage.isComplete : TransactionPoolStage → Bool
  | .complete => true
  | _ => false

/-- The transaction body relevant to locking: inputs, filled inputs (both
Write-locked) and input refs (Read-locked). -/
structure Transaction where
  id : Nat
  inputs : List Nat
  filledInputs : List Nat
  inputRefs : List Nat
deriving DecidableEq, Repr

/-- An executed transaction: the transaction plus the final decision stamp
(`set_final_decision`). -/
structure ExecutedTransaction where
  transaction : Transaction
  finalDecision : Option Decision
deriving DecidableEq, Repr

/-- Modelled from the spec: a transaction pool record — stage, original and
changed decisions, evidence (shard id mapped to the justifying QC id), the
set of shards the transaction touches, and the readiness flag.  The record
type lives in `tari_dan_storage::consensus_models`, outside the embedded
sources. -/
structure TransactionPoolRecord where
  transactionId : Nat
  stage : TransactionPoolStage
  originalDecision : Decision
  changedDecision : Option Decision
  evidence : List (Nat × Nat)
  shardsInvolved : List Nat
  isReady : Bool
deriving DecidableEq, Repr

/-- Association-list lookup keyed by `Nat`. -/
def lookupA {α : Type} (k : Nat) : List (Nat × α) → Option α
  | [] => none
  | (k', v) :: rest => if k' = k then some v else lookupA k rest

/-- Association-list insert-or-replace keyed by `Nat`. -/
def putA {α : Type} (k : Nat) (v : α) : List (Nat × α) → List (Nat × α)
  | [] => [(k, v)]
  | (k', v') :: rest => if k' = k then (k, v) :: rest else (k', v') :: putA k v rest

/-- Association-list removal keyed by `Nat`. -/
def removeA {α : Type} (k : Nat) : List (Nat × α) → List (Nat × α)
  | [] => []
  | (k', v) :: rest => if k' = k then removeA k rest else (k', v) :: removeA k rest

/-- Modelled from the spec: update the evidence entry for a shard with the
justifying QC id (`TransactionPoolRecord::update_evidence`). -/
def TransactionPoolRecord.updateEvidence (r : TransactionPoolRecord) (shard qcId : Nat) :
    TransactionPoolRecord :=
  { r with evidence := putA shard qcId r.evidence }

/-- Modelled from the spec: record a changed decision
(`TransactionPoolRecord::update_decision`). -/
def TransactionPoolRecord.updateDecision (r : TransactionPoolRecord) (d : Decision) :
    TransactionPoolRecord :=
  { r with changedDecision := some d }

/-- Modelled from the spec: move the record to a new stage with the given
readiness flag (`TransactionPoolRecord::transition`). -/
def TransactionPoolRecord.transition (r : TransactionPoolRecord)
    (stage : TransactionPoolStage) (ready : Bool) : TransactionPoolRecord :=
  { r with stage := stage, isReady := ready }

/-- Modelled from the spec: the pool's conclusive decision — the changed
decision when one was recorded, the original decision otherwise
(`TransactionPoolRecord::final_decision`). -/
def TransactionPoolRecord.finalDecision (r : TransactionPoolRecord) : Decision :=
  r.changedDecision.getD r.originalDecision

/-- Modelled from the spec: evidence covers every shard the transaction
touches (`Evidence::all_shards_complete`). -/
def TransactionPoolRecord.allShardsComplete (r : TransactionPoolRecord) : Bool :=
  r.shardsInvolved.all (fun sh => (lookupA sh r.evidence).isSome)

/-- A committee shard: its shard id (recorded in evidence) and the substate
ids it is responsible for (`CommitteeShard::filter`). -/
structure CommitteeShard where
  shard : Nat
  substates : List Nat
deriving DecidableEq, Repr

/-- `CommitteeShard::filter`: restrict substate ids to those the local
committee covers. -/
def CommitteeShard.filterIds (cs : CommitteeShard) (ids : List Nat) : List Nat :=
  ids.filter (fun i => cs.substates.contains i)

/-- Substate lock kind: `Read` for input refs, `Write` for inputs. -/
inductive SubstateLockFlag where
  | read
  | write
deriving DecidableEq, Repr

/-- Lock state of one substate: unlocked, shared read locks, or one write
lock.  At most one write holder; write excludes read. -/
inductive LockState where
  | unlocked
  | readLocked (readers : List Nat)
  | writeLocked (owner : Nat)
deriving DecidableEq, Repr

/-- Whether a lock of the given kind can be granted over the current state. -/
def canLock (st : LockState) (flag : SubstateLockFlag) : Bool :=
  match st, flag with
  | .unlocked, _ => true
  | .readLocked _, .read => true
  | _, _ => false

/-- Grant a lock to `owner` (read locks are a set of reader transaction ids). -/
def acquireLock (owner : Nat) (flag : SubstateLockFlag) (st : LockState) : LockState :=
  match flag with
  | .write => .writeLocked owner
  | .read =>
    match st with
    | .readLocked rs => if rs.contains owner then .readLocked rs else .readLocked (owner :: rs)
    | _ => .readLocked [owner]

/-- Release `owner`'s lock of the given kind, leaving other holders in place. -/
def releaseLock (owner : Nat) (flag : SubstateLockFlag) (st : LockState) : LockState :=
  match flag with
  | .write =>
    match st with
    | .writeLocked o => if o = owner then .unlocked else .writeLocked o
    | other => other
  | .read =>
    match st with
    | .readLocked rs =>
      let rs' := rs.filter (fun x => x ≠ owner)
      if rs' = [] then .unlocked else .readLocked rs'
    | other => other

/-- Modelled from the spec: `SubstateRecord::try_lock_many`, an atomic
acquire-all-or-none lock acquisition — if every requested lock can be granted
all are taken, otherwise the lock table is left unchanged and the call reports
failure. -/
def tryLockMany (owner : Nat) (ids : List Nat) (flag : SubstateLockFlag)
    (locks : Nat → LockState) : (Nat → LockState) × Bool :=
  if ids.all (fun i => canLock (locks i) flag) then
    (fun i => if ids.contains i then acquireLock owner flag (locks i) else locks i, true)
  else
    (locks, false)

/-- Modelled from the spec: `SubstateRecord::try_unlock_many`, releasing the
owner's locks of the given kind over the requested ids. -/
def tryUnlockMany (owner : Nat) (ids : List Nat) (flag : SubstateLockFlag)
    (locks : Nat → LockState) : Nat → LockState :=
  fun i => if ids.contains i then releaseLock owner flag (locks i) else locks i

/-- `OnReceiveProposalHandler::lock_inputs`: Write-lock the committee's part of
`inputs ++ filled_inputs`, then Read-lock its part of `input_refs`; report
failure as soon as either acquisition fails. -/
def lockInputs (cs : CommitteeShard) (t : Transaction) (locks : Nat → LockState) :
    (Nat → LockState) × Bool :=
  let r1 := tryLockMany t.id (cs.filterIds (t.inputs ++ t.filledInputs)) .write locks
  if r1.2 = false then (r1.1, false)
  else
    let r2 := tryLockMany t.id (cs.filterIds t.inputRefs) .read r1.1
    if r2.2 = false then (r2.1, false) else (r2.1, true)

/-- `OnReceiveProposalHandler::unlock_inputs`: release the Write locks over
`inputs ++ filled_inputs` and the Read locks over `input_refs`. -/
def unlockInputs (cs : CommitteeShard) (t : Transaction) (locks : Nat → LockState) :
    Nat → LockState :=
  tryUnlockMany t.id (cs.filterIds t.inputRefs) .read
    (tryUnlockMany t.id (cs.filterIds (t.inputs ++ t.filledInputs)) .write locks)

/-- Proposal validation failures (`ProposalValidationError`). -/
inductive ProposalValidationError where
  | proposingGenesisBlock (blockId : Nat)
  | nodeHashMismatch (blockId calculated : Nat)
  | justifyBlockNotFound (blockId justifyBlockId : Nat)
  | justifyBlockInvalid (blockId : Nat)
deriving DecidableEq, Repr

/-- The handler errors the embedding distinguishes (`HotStuffError`).
`fuelExhausted` stands for the unbounded parent recursion of `on_commit`
exceeding the fuel supplied by the model. -/
inductive HotStuffError where
  | proposalValidation (e : ProposalValidationError)
  | transactionPoolRecordNotFound (txId : Nat)
  | transactionNotFound (txId : Nat)
  | blockNotFound (blockId : Nat)
  | lockedBlockNotFound (epoch : Nat)
  | lastExecutedNotFound (epoch : Nat)
  | fuelExhausted
deriving DecidableEq, Repr

/-- The durable state the proposal handler reads and writes: blocks and QCs by
id, the per-epoch safety markers (`LastVoted`, `LockedBlock` as id and height,
`LastExecuted`, high QC), the transaction pool, executed transactions, the
substate lock table, the awaiting-transactions index, and the record of
substate diffs applied through the state manager (as pairs of block id and
transaction id). -/
structure StoreState where
  blocks : List (Nat × Block)
  qcs : List (Nat × QuorumCertificate)
  lastVoted : List (Nat × Nat)
  lockedBlock : List (Nat × (Nat × Nat))
  lastExecuted : List (Nat × Nat)
  highQc : List (Nat × QuorumCertificate)
  pool : List (Nat × TransactionPoolRecord)
  execTxs : List (Nat × ExecutedTransaction)
  locks : Nat → LockState
  missingTxs : List (Nat × List Nat)
  stateCommits : List (Nat × Nat)

/-- `QuorumCertificate::save`: insert the QC if not present (idempotent on id). -/
def saveQc (s : StoreState) (qc : QuorumCertificate) : StoreState :=
  { s with qcs := putA qc.qcId qc s.qcs }

/-- `Block::save`: insert the block if not present (idempotent on id). -/
def saveBlock (s : StoreState) (b : Block) : StoreState :=
  { s with blocks := putA b.id b s.blocks }

/-- `block.as_last_voted().set`: advance the epoch's `LastVoted` marker. -/
def setLastVoted (s : StoreState) (epoch height : Nat) : StoreState :=
  { s with lastVoted := putA epoch height s.lastVoted }

/-- `block.as_locked().set`: store the epoch's locked block (id and height). -/
def setLockedBlock (s : StoreState) (epoch : Nat) (v : Nat × Nat) : StoreState :=
  { s with lockedBlock := putA epoch v s.lockedBlock }

/-- `block.as_last_executed().set`: advance the epoch's `LastExecuted` marker. -/
def setLastExecuted (s : StoreState) (epoch height : Nat) : StoreState :=
  { s with lastExecuted := putA epoch height s.lastExecuted }

/-- Write a transaction pool record. -/
def putPool (s : StoreState) (txId : Nat) (r : TransactionPoolRecord) : StoreState :=
  { s with pool := putA txId r s.pool }

/-- `TransactionPoolRecord::remove`. -/
def removePool (s : StoreState) (txId : Nat) : StoreState :=
  { s with pool := removeA txId s.pool }

/-- `ExecutedTransaction::update`. -/
def setExecTx (s : StoreState) (txId : Nat) (e : ExecutedTransaction) : StoreState :=
  { s with execTxs := putA txId e s.execTxs }

/-- `insert_missing_transactions`: remember that a block awaits transactions. -/
def insertMissing (s : StoreState) (blockId : Nat) (txIds : List Nat) : StoreState :=
  { s with missingTxs := putA blockId txIds s.missingTxs }

/-- `Block::get` as a fallible store read. -/
def getBlock (s : StoreState) (blockId : Nat) : Except HotStuffError Block :=
  match lookupA blockId s.blocks with
  | some b => .ok b
  | none => .error (.blockNotFound blockId)

/-- Modelled from the spec: `update_high_qc` (in `hotstuff/common`, outside the
embedded sources) — replace the stored high QC with the justify when the
justify certifies a greater height. -/
def updateHighQc (s : StoreState) (qc : QuorumCertificate) : StoreState :=
  match lookupA qc.epoch s.highQc with
  | none => { s with highQc := putA qc.epoch qc s.highQc }
  | some cur =>
    if cur.blockHeight < qc.blockHeight then { s with highQc := putA qc.epoch qc s.highQc }
    else s

/-- Modelled from the spec: `Block::extends` (in `tari_dan_storage`, outside
the embedded sources) — walk the parent chain from the block until reaching
the locked block or an ancestor at or below its height.  The fuel bounds the
walk; callers pass the block height, which bounds any height-decreasing
chain. -/
def extendsChain (s : StoreState) : Nat → Block → Block → Bool
  | 0, _, _ => false
  | fuel + 1, b, locked =>
    if b.parent = locked.id then true
    else
      match lookupA b.parent s.blocks with
      | none => false
      | some p => if p.height ≤ locked.height then false else extendsChain s fuel p locked

/-- `is_safe_block` as implemented: return `false` when the justify height is
not above the locked height, otherwise return whether the block extends the
locked block — i.e. the conjunction of the liveness and safety rules. -/
def isSafeBlock (s : StoreState) (b locked : Block) : Bool :=
  if b.justify.blockHeight ≤ locked.height then false
  else extendsChain s b.height b locked

/-- The safe-node predicate as the specification (and the code's own doc
comment) states it: the liveness rule (justify height above the locked height)
or the safety rule (the block extends the locked block); either alone
suffices. -/
def specSafeNode (s : StoreState) (b locked : Block) : Bool :=
  decide (locked.height < b.justify.blockHeight) || extendsChain s b.height b locked

/-- `OnReceiveProposalHandler::should_vote`: return `true` immediately when no
`LastVoted` marker exists for the epoch; otherwise require the block height to
exceed the last voted height and the block to satisfy `is_safe_block` against
the epoch's locked block. -/
def shouldVote (s : StoreState) (b : Block) : Except HotStuffError Bool :=
  match lookupA b.epoch s.lastVoted with
  | none => .ok true
  | some lastVotedHeight =>
    if b.height ≤ lastVotedHeight then .ok false
    else
      match lookupA b.epoch s.lockedBlock with
      | none => .error (.lockedBlockNotFound b.epoch)
      | some locked =>
        match getBlock s locked.1 with
        | .error e => .error e
        | .ok lockedBlock => .ok (isSafeBlock s b lockedBlock)

/-- The per-command loop of `decide_what_to_vote`: look up the pool record
(an error when absent), merge the local committee's evidence and the block's
justify QC id, then apply the per-command rule; any disagreement returns
`none` (abstain) keeping the mutations made so far, and an empty remainder
returns `some Accept`. -/
def decideCommands (cs : CommitteeShard) (qcId : Nat) :
    StoreState → List Command → Except HotStuffError (StoreState × Option QuorumDecision)
  | s, [] => .ok (s, some .accept)
  | s, cmd :: rest =>
    match lookupA cmd.transactionId s.pool with
    | none => .error (.transactionPoolRecordNotFound cmd.transactionId)
    | some r0 =>
      let r := r0.updateEvidence cs.shard qcId
      let s1 := putPool s cmd.transactionId r
      match cmd with
      | .prepare t =>
        if r.stage ≠ .new then .ok (s1, none)
        else if r.originalDecision = t.decision then
          if r.originalDecision = .commit then
            match lookupA t.id s1.execTxs with
            | none => .error (.transactionNotFound t.id)
            | some executed =>
              let lr := lockInputs cs executed.transaction s1.locks
              let s2 := { s1 with locks := lr.1 }
              if lr.2 = false then .ok (s2, none)
              else decideCommands cs qcId (putPool s2 t.id (r.transition .prepared true)) rest
          else decideCommands cs qcId (putPool s1 t.id (r.transition .prepared true)) rest
        else .ok (s1, none)
      | .localPrepared t =>
        if r.stage = .new then .ok (s1, none)
        else if r.originalDecision ≠ t.decision ∧ r.changedDecision ≠ some t.decision then
          .ok (s1, none)
        else
          let r1 := if r.stage = .prepared then r.transition .localPrepared false else r
          let s2 := if r.stage = .prepared then putPool s1 t.id r1 else s1
          if r1.allShardsComplete then
            if r1.changedDecision = some .abort then
              decideCommands cs qcId (putPool s2 t.id (r1.transition .somePrepared true)) rest
            else
              decideCommands cs qcId (putPool s2 t.id (r1.transition .allPrepared true)) rest
          else decideCommands cs qcId s2 rest
      | .accept t =>
        if r.stage = .allPrepared ∨ r.stage = .somePrepared then
          if r.finalDecision = t.decision then
            decideCommands cs qcId (putPool s1 t.id (r.transition .complete false)) rest
          else .ok (s1, none)
        else .ok (s1, none)

/-- `decide_what_to_vote`: set `LastVoted` to the block height before any
command is examined, then run the per-command loop. -/
def decideWhatToVote (cs : CommitteeShard) (s : StoreState) (b : Block) :
    Except HotStuffError (StoreState × Option QuorumDecision) :=
  decideCommands cs b.justify.qcId (setLastVoted s b.epoch b.height) b.commands

/-- The body of the `on_receive_foreign_block` command loop for one command:
only `LocalPrepared` commands with an existing, non-complete pool record have
an effect — their evidence is updated with the foreign committee's shard and
the justify QC id, the decision is changed to Abort on a foreign Abort against
a local original Commit, and a `LocalPrepared` record whose evidence became
complete transitions to `SomePrepared` or `AllPrepared`. -/
def foreignStep (cs : CommitteeShard) (qcId : Nat) (s : StoreState) (cmd : Command) :
    StoreState :=
  match cmd.localPreparedAtom with
  | none => s
  | some t =>
    match lookupA t.id s.pool with
    | none => s
    | some r0 =>
      if r0.stage.isComplete then s
      else
        let r1 := r0.updateEvidence cs.shard qcId
        let changeToAbort := t.decision.isAbort && r1.originalDecision.isCommit
        let r2 := if changeToAbort then r1.updateDecision .abort else r1
        let r3 :=
          if r2.stage = .localPrepared ∧ r2.allShardsComplete then
            if changeToAbort then r2.transition .somePrepared true
            else r2.transition .allPrepared true
          else r2
        putPool s t.id r3

/-- `on_receive_foreign_block`: save the justify QC, then fold the foreign
per-command step over the block's commands. -/
def onReceiveForeignBlock (cs : CommitteeShard) (s : StoreState) (b : Block) : StoreState :=
  b.commands.foldl (foreignStep cs b.justify.qcId) (saveQc s b.justify)

/-- One command of `OnReceiveProposalHandler::execute`: every command requires
its pool record; an `Accept` fetches the executed transaction, applies the
substate diff through the state manager only on Commit, releases the
transaction's locks in both branches, removes the pool record, and stamps the
executed transaction with the final decision. -/
def executeCommand (cs : CommitteeShard) (blockId : Nat) (s : StoreState) (cmd : Command) :
    Except HotStuffError StoreState :=
  match lookupA cmd.transactionId s.pool with
  | none => .error (.transactionPoolRecordNotFound cmd.transactionId)
  | some _ =>
    match cmd with
    | .prepare _ => .ok s
    | .localPrepared _ => .ok s
    | .accept t =>
      match lookupA t.id s.execTxs with
      | none => .error (.transactionNotFound t.id)
      | some executed =>
        let s1 :=
          match t.decision with
          | .commit =>
            { s with
              stateCommits := s.stateCommits ++ [(blockId, t.id)],
              locks := unlockInputs cs executed.transaction s.locks }
          | .abort => { s with locks := unlockInputs cs executed.transaction s.locks }
        let s2 := removePool s1 t.id
        .ok (setExecTx s2 t.id { executed with finalDecision := some t.decision })

/-- Fold `executeCommand` over a command list, stopping at the first error. -/
def execCmds (cs : CommitteeShard) (blockId : Nat) :
    StoreState → List Command → Except HotStuffError StoreState
  | s, [] => .ok s
  | s, c :: rest =>
    match executeCommand cs blockId s c with
    | .error e => .error e
    | .ok s' => execCmds cs blockId s' rest

/-- `OnReceiveProposalHandler::execute` over a whole block. -/
def executeBlock (cs : CommitteeShard) (s : StoreState) (b : Block) :
    Except HotStuffError StoreState :=
  execCmds cs b.id s b.commands

/-- `OnReceiveProposalHandler::on_commit`: while the block height exceeds the
`LastExecuted` marker read before the recursion, recurse into the parent and
then execute the block, collecting the executed blocks in ascending chain
order (the emitted `BlockCommitted` events).  The Rust recursion is unbounded;
the fuel makes it structural and callers pass `height + 1`. -/
def onCommit (cs : CommitteeShard) (lastExec : Nat) :
    Nat → StoreState → Block → Except HotStuffError (StoreState × List Block)
  | 0, _, _ => .error .fuelExhausted
  | fuel + 1, s, b =>
    if lastExec < b.height then
      match lookupA b.parent s.blocks with
      | none => .error (.blockNotFound b.parent)
      | some parent =>
        match onCommit cs lastExec fuel s parent with
        | .error e => .error e
        | .ok (s1, l1) =>
          match executeBlock cs s1 b with
          | .error e => .error e
          | .ok s2 => .ok (s2, l1 ++ [b])
    else .ok (s, [])

/-- The three-chain test of `update_nodes` on the processed block `b*`:
`b'' = b*.justify.block` and `b' = b''.justify.block` exist in the store,
`b''.parent = b'.id` and `b'.parent = b'.justify.block_id`. -/
def threeChainCond (s : StoreState) (b : Block) : Bool :=
  match lookupA b.justify.blockId s.blocks with
  | none => false
  | some commitNode =>
    match lookupA commitNode.justify.blockId s.blocks with
    | none => false
    | some precommitNode =>
      decide (commitNode.parent = precommitNode.id ∧
        precommitNode.parent = precommitNode.justify.blockId)

/-- `OnReceiveProposalHandler::update_nodes`: update the high QC, look up
`b''` and `b'` (returning quietly when either is unknown), advance the locked
block when `b'` is higher, and when the three-chain condition holds run
`on_commit` from the `LastExecuted` marker on the processed block itself and
then set `LastExecuted` to the processed block's height.  The returned list
records the committed blocks in order. -/
def updateNodes (cs : CommitteeShard) (s : StoreState) (b : Block) :
    Except HotStuffError (StoreState × List Block) :=
  let s0 := updateHighQc s b.justify
  match lookupA b.justify.blockId s0.blocks with
  | none => .ok (s0, [])
  | some commitNode =>
    match lookupA commitNode.justify.blockId s0.blocks with
    | none => .ok (s0, [])
    | some precommitNode =>
      match lookupA b.epoch s0.lockedBlock with
      | none => .error (.lockedBlockNotFound b.epoch)
      | some locked =>
        let s1 :=
          if locked.2 < precommitNode.height then
            setLockedBlock s0 b.epoch (precommitNode.id, precommitNode.height)
          else s0
        if commitNode.parent = precommitNode.id ∧
            precommitNode.parent = precommitNode.justify.blockId then
          match lookupA b.epoch s1.lastExecuted with
          | none => .error (.lastExecutedNotFound b.epoch)
          | some lastExec =>
            match onCommit cs lastExec (b.height + 1) s1 b with
            | .error e => .error e
            | .ok (s2, committed) => .ok (setLastExecuted s2 b.epoch b.height, committed)
        else .ok (s1, [])

/-- `validate_proposed_block` (all proposals): reject genesis proposals and
blocks whose id differs from the content hash. -/
def validateProposedBlock (b : Block) : Except ProposalValidationError Unit :=
  if b.height = 0 ∨ b.id = genesisId then .error (.proposingGenesisBlock b.id)
  else if b.calculateHash ≠ b.id then .error (.nodeHashMismatch b.id b.calculateHash)
  else .ok ()

/-- `validate_local_proposed_block`: the common validation, then require the
justify block to be stored (`JustifyBlockNotFound` otherwise) with a height
matching the justify's claimed height (`JustifyBlockInvalid` otherwise). -/
def validateLocalProposedBlock (s : StoreState) (b : Block) :
    Except ProposalValidationError Unit :=
  match validateProposedBlock b with
  | .error e => .error e
  | .ok _ =>
    match lookupA b.justify.blockId s.blocks with
    | none => .error (.justifyBlockNotFound b.id b.justify.blockId)
    | some justifyBlock =>
      if justifyBlock.height ≠ b.justify.blockHeight then .error (.justifyBlockInvalid b.id)
      else .ok ()

/-- `process_block`: inside one write transaction run `should_vote`, the vote
decision when voting is allowed, and `update_nodes`; an error rolls the
transaction back (the state reverts), otherwise the mutations commit and the
optional block-level decision is returned. -/
def processBlock (cs : CommitteeShard) (s : StoreState) (b : Block) :
    StoreState × Except HotStuffError (Option QuorumDecision) :=
  let inner : Except HotStuffError (StoreState × Option QuorumDecision) := do
    let sv ← shouldVote s b
    let p ← if sv then decideWhatToVote cs s b else Except.ok (s, none)
    let q ← updateNodes cs p.1 b
    Except.ok (q.1, p.2)
  match inner with
  | .error e => (s, .error e)
  | .ok (s2, maybeDecision) => (s2, .ok maybeDecision)

/-- `handle_local_proposal`: validate and save the block and its justify in a
first write transaction (a validation failure rolls it back and surfaces the
error); then, when transactions referenced by the commands are missing, store
the awaiting index and stop without voting; otherwise process the block. -/
def handleLocalProposal (cs : CommitteeShard) (s : StoreState) (b : Block) :
    StoreState × Except HotStuffError (Option QuorumDecision) :=
  match validateLocalProposedBlock s b with
  | .error e => (s, .error (.proposalValidation e))
  | .ok _ =>
    let s1 := saveBlock (saveQc s b.justify) b
    let missing :=
      ((b.commands.map Command.transactionId).dedup).filter
        (fun i => (lookupA i s1.execTxs).isNone)
    if missing.isEmpty then processBlock cs s1 b
    else (insertMissing s1 b.id missing, .ok none)

/-- The per-command check of the specification's vote table, evaluated against
the pool record with the current command's evidence merged: `Prepare` requires
stage `New`, agreement with the original decision and (for Commit) a
successful lock acquisition; `LocalPrepared` requires a stage other than `New`
and agreement with the original or changed decision; `Accept` requires stage
`AllPrepared` or `SomePrepared` and agreement with the pool's final
decision. -/
def cmdCheck (cs : CommitteeShard) (qcId : Nat) (s : StoreState) (cmd : Command) : Bool :=
  match lookupA cmd.transactionId s.pool with
  | none => false
  | some r0 =>
    let r := r0.updateEvidence cs.shard qcId
    match cmd with
    | .prepare t =>
      decide (r.stage = .new) && decide (r.originalDecision = t.decision) &&
        (if r.originalDecision = .commit then
          match lookupA t.id s.execTxs with
          | none => false
          | some executed => (lockInputs cs executed.transaction s.locks).2
        else true)
    | .localPrepared t =>
      decide (r.stage ≠ .new) &&
        (decide (r.originalDecision = t.decision) || decide (r.changedDecision = some t.decision))
    | .accept t =>
      (decide (r.stage = .allPrepared) || decide (r.stage = .somePrepared)) &&
        decide (r.finalDecision = t.decision)

/-- The state mutation a passing command performs: the merged evidence is
written back, `Prepare` acquires the locks (on Commit) and moves to
`Prepared`, `LocalPrepared` moves through `LocalPrepared` and on complete
evidence to `SomePrepared`/`AllPrepared`, and `Accept` moves to `Complete`. -/
def applyCommandPass (cs : CommitteeShard) (qcId : Nat) (s : StoreState) (cmd : Command) :
    StoreState :=
  match lookupA cmd.transactionId s.pool with
  | none => s
  | some r0 =>
    let r := r0.updateEvidence cs.shard qcId
    let s1 := putPool s cmd.transactionId r
    match cmd with
    | .prepare t =>
      let s2 :=
        if r.originalDecision = .commit then
          match lookupA t.id s1.execTxs with
          | none => s1
          | some executed =>
            { s1 with locks := (lockInputs cs executed.transaction s1.locks).1 }
        else s1
      putPool s2 t.id (r.transition .prepared true)
    | .localPrepared t =>
      let r1 := if r.stage = .prepared then r.transition .localPrepared false else r
      let s2 := if r.stage = .prepared then putPool s1 t.id r1 else s1
      if r1.allShardsComplete then
        if r1.changedDecision = some .abort then
          putPool s2 t.id (r1.transition .somePrepared true)
        else putPool s2 t.id (r1.transition .allPrepared true)
      else s2
    | .accept t => putPool s1 t.id (r.transition .complete false)

/-- Every command in sequence passes its check, the state being threaded
through the passing mutations. -/
def passList (cs : CommitteeShard) (qcId : Nat) : StoreState → List Command → Bool
  | _, [] => true
  | s, cmd :: rest =>
    cmdCheck cs qcId s cmd && passList cs qcId (applyCommandPass cs qcId s cmd) rest

/-- Substate resolver failures (`SubstateResolverError`). -/
inductive SubstateResolverError where
  | unauthorizedFeeClaim
  | inputSubstateDowned
  | inputSubstateDoesNotExist
  | transport
  | storage
deriving DecidableEq, Repr

/-- Mempool failures surfaced by `execute_transaction` (`MempoolError`). -/
inductive MempoolError where
  | resolver (e : SubstateResolverError)
  | executionFailure
  | executionThreadFailure
deriving DecidableEq, Repr

/-- A substate id pinned to a version (`VersionedSubstateId`). -/
structure VersionedSubstateId where
  substateId : Nat
  version : Nat
deriving DecidableEq, Repr

/-- A versioned substate id with the lock kind the transaction intends
(`VersionedSubstateIdLockIntent`). -/
structure VersionedSubstateIdLockIntent where
  versionedId : VersionedSubstateId
  lockFlag : SubstateLockFlag
deriving DecidableEq, Repr

/-- The substate diff of an accepted execution result: the downed substates
and the created substates, each an id with a version. -/
structure SubstateDiff where
  downSubstates : List (Nat × Nat)
  upSubstates : List (Nat × Nat)
deriving DecidableEq, Repr

/-- The executor's output as the mempool consumes it: the accepted diff when
`result().finalize.accept()` is some, and the resolved lock intents the
mempool attaches (`set_resolved_inputs`). -/
structure MempoolExecutedTransaction where
  transactionId : Nat
  finalizeAccept : Option SubstateDiff
  resolvedInputs : List VersionedSubstateIdLockIntent
deriving DecidableEq, Repr

/-- `execute_transaction` (mempool executor): resolve virtual substates
(`UnauthorizedFeeClaim` is a transaction failure, other errors propagate);
resolve the inputs (`InputSubstateDowned`/`InputSubstateDoesNotExist` are
transaction failures, other errors propagate); on executor success derive the
lock intents over the deduplicated versioned inputs — Write when the input's
substate id appears in the accepted diff's down set, Read otherwise, and no
intents when the result was not an accepted diff; executor failure is a
transaction failure.  The resolver and executor are external collaborators
and enter as their outcomes. -/
def executeTransaction
    (resolveVirtualSubstates : Except SubstateResolverError Unit)
    (resolve : Except SubstateResolverError (List (Nat × Nat)))
    (executorResult : Except Unit MempoolExecutedTransaction) :
    Except MempoolError (Except MempoolError MempoolExecutedTransaction) :=
  match resolveVirtualSubstates with
  | .error .unauthorizedFeeClaim => .ok (.error (.resolver .unauthorizedFeeClaim))
  | .error e => .error (.resolver e)
  | .ok _ =>
    match resolve with
    | .ok inputs =>
      let versionedInputs := (inputs.map (fun p => VersionedSubstateId.mk p.1 p.2)).dedup
      match executorResult with
      | .ok executed =>
        let resolvedInputs :=
          match executed.finalizeAccept with
          | some diff =>
            versionedInputs.map (fun v =>
              VersionedSubstateIdLockIntent.mk v
                (if diff.downSubstates.any (fun d => d.1 = v.substateId) then .write else .read))
          | none => []
        .ok (.ok { executed with resolvedInputs := resolvedInputs })
      | .error _ => .ok (.error .executionFailure)
    | .error .inputSubstateDowned => .ok (.error (.resolver .inputSubstateDowned))
    | .error .inputSubstateDoesNotExist => .ok (.error (.resolver .inputSubstateDoesNotExist))
    | .error e => .error (.resolver e)

/-- A shard group as a range of shards (`ShardGroup`). -/
structure ShardGroup where
  sgStart : Nat
  sgEnd : Nat
deriving DecidableEq, Repr

/-- `shard_group_to_topic`: the consensus gossip topic for a shard group. -/
def shardGroupToTopic (sg : ShardGroup) : String :=
  "consensus-" ++ toString sg.sgStart ++ "-" ++ toString sg.sgEnd

/-- A topic operation issued to the gossip overlay. -/
inductive TopicOp where
  | subscribeTopic (topic : String)
  | unsubscribeTopic (topic : String)
deriving DecidableEq, Repr

/-- The consensus gossip service's subscription state (`is_subscribed`). -/
structure ConsensusGossipState where
  isSubscribed : Option ShardGroup
deriving DecidableEq, Repr

/-- `ConsensusGossipService::unsubscribe`: release the current topic, if any. -/
def consensusGossipUnsubscribe (st : ConsensusGossipState) :
    ConsensusGossipState × List TopicOp :=
  match st.isSubscribed with
  | some sg => (⟨none⟩, [.unsubscribeTopic (shardGroupToTopic sg)])
  | none => (st, [])

/-- `ConsensusGossipService::subscribe`: look up the local committee's shard
group for the epoch; return unchanged when already subscribed to it,
unsubscribe first when subscribed to a different one, then subscribe to the
new topic. -/
def consensusGossipSubscribe (shardGroupFor : Nat → ShardGroup) (epoch : Nat)
    (st : ConsensusGossipState) : ConsensusGossipState × List TopicOp :=
  let sg := shardGroupFor epoch
  match st.isSubscribed with
  | some cur =>
    if cur = sg then (st, [])
    else
      let u := consensusGossipUnsubscribe st
      (⟨some sg⟩, u.2 ++ [.subscribeTopic (shardGroupToTopic sg)])
  | none => (⟨some sg⟩, [.subscribeTopic (shardGroupToTopic sg)])

/-- `transactions-<bucket>`, the mempool gossip topic for a shard bucket. -/
def bucketToTopic (bucket : Nat) : String :=
  "transactions-" ++ toString bucket

/-- The mempool gossip service's subscription state (`is_subscribed`). -/
structure MempoolGossipState where
  isSubscribed : Option Nat
deriving DecidableEq, Repr

/-- `MempoolGossip::unsubscribe`: release the current bucket topic, if any. -/
def mempoolGossipUnsubscribe (st : MempoolGossipState) :
    MempoolGossipState × List TopicOp :=
  match st.isSubscribed with
  | some b => (⟨none⟩, [.unsubscribeTopic (bucketToTopic b)])
  | none => (st, [])

/-- `MempoolGossip::subscribe`: look up the local committee's bucket for the
epoch; return unchanged when already subscribed to it, unsubscribe first when
subscribed to a different one, then subscribe to the bucket topic. -/
def mempoolGossipSubscribe (bucketFor : Nat → Nat) (epoch : Nat)
    (st : MempoolGossipState) : MempoolGossipState × List TopicOp :=
  let bucket := bucketFor epoch
  match st.isSubscribed with
  | some cur =>
    if cur = bucket then (st, [])
    else
      let u := mempoolGossipUnsubscribe st
      (⟨some bucket⟩, u.2 ++ [.subscribeTopic (bucketToTopic bucket)])
  | none => (⟨some bucket⟩, [.subscribeTopic (bucketToTopic bucket)])

/-- Decidable equality on `Except`, so that runs of the fallible operations
can be evaluated by `decide`. -/
instance {ε α : Type} [DecidableEq ε] [DecidableEq α] : DecidableEq (Except ε α) :=
  fun x y =>
    match x, y with
    | .error a, .error b =>
      if h : a = b then .isTrue (by rw [h])
      else .isFalse (fun hh => h (Except.error.inj hh))
    | .error _, .ok _ => .isFalse (fun hh => Except.noConfusion hh)
    | .ok _, .error _ => .isFalse (fun hh => Except.noConfusion hh)
    | .ok a, .ok b =>
      if h : a = b then .isTrue (by rw [h])
      else .isFalse (fun hh => h (Except.ok.inj hh))

/-! ### Concrete instances used to evaluate the model -/

/-- An empty substate lock table. -/
def noLocks : Nat → LockState := fun _ => .unlocked

/-- An empty store. -/
def emptyStore : StoreState :=
  { blocks := [], qcs := [], lastVoted := [], lockedBlock := [], lastExecuted := [],
    highQc := [], pool := [], execTxs := [], locks := noLocks, missingTxs := [],
    stateCommits := [] }

/-- Locked block at height 5 for the safe-node evaluation. -/
def c1Locked : Block :=
  { id := 1, parent := 0, justify := ⟨0, 0, 0, 0⟩, epoch := 0, height := 5,
    proposer := 0, commands := [] }

/-- A block that extends the locked block directly but whose justify height
does not exceed the locked height: the safety rule holds, the liveness rule
does not. -/
def c1Block : Block :=
  { id := 2, parent := 1, justify := ⟨9, 1, 5, 0⟩, epoch := 0, height := 6,
    proposer := 0, commands := [] }

/-- Store holding the two blocks of the safe-node evaluation. -/
def c1Store : StoreState :=
  { emptyStore with blocks := [(1, c1Locked), (2, c1Block)] }

/-- Committee shard covering substates 1 and 2. -/
def c2Shard : CommitteeShard := ⟨0, [1, 2]⟩

/-- A transaction writing substate 1 and reading substate 2. -/
def c2Tx : Transaction := { id := 7, inputs := [1], filledInputs := [], inputRefs := [2] }

/-- A lock table in which substate 2 is already write-locked by another
transaction, so the Read acquisition over the input refs must fail. -/
def c2Locks : Nat → LockState := fun i => if i = 2 then .writeLocked 9 else .unlocked

/-- Locked block at height 5 for the fresh-epoch vote evaluation. -/
def c6Locked : Block :=
  { id := 1, parent := 0, justify := ⟨0, 0, 0, 0⟩, epoch := 0, height := 5,
    proposer := 0, commands := [] }

/-- A block that neither extends the locked block nor carries a justify above
the locked height: the safe-node predicate fails on it. -/
def c6Block : Block :=
  { id := 2, parent := 3, justify := ⟨9, 1, 3, 0⟩, epoch := 0, height := 9,
    proposer := 0, commands := [] }

/-- A store with a locked block but no `LastVoted` marker for epoch 0. -/
def c6Store : StoreState :=
  { emptyStore with blocks := [(1, c6Locked)], lockedBlock := [(0, (1, 5))] }

/-- Inputs for the executor evaluation: substates 4 (version 0) and 5
(version 2). -/
def c8Inputs : List (Nat × Nat) := [(4, 0), (5, 2)]

/-- An accepted diff downing substate 4. -/
def c8Diff : SubstateDiff := { downSubstates := [(4, 0)], upSubstates := [(4, 1)] }

/-- The executor output before the mempool attaches lock intents. -/
def c8Executed : MempoolExecutedTransaction :=
  { transactionId := 99, finalizeAccept := some c8Diff, resolvedInputs := [] }

/-- The mempool output expected for the executor evaluation. -/
def c8Out : MempoolExecutedTransaction :=
  { transactionId := 99, finalizeAccept := some c8Diff,
    resolvedInputs := [⟨⟨4, 0⟩, .write⟩, ⟨⟨5, 2⟩, .read⟩] }

/-- Shard-group assignment used in the gossip evaluation. -/
def c9ShardGroupFor : Nat → ShardGroup := fun _ => ⟨1, 2⟩

/-- Bucket assignment used in the gossip evaluation. -/
def c9BucketFor : Nat → Nat := fun _ => 4

/-- The record transform the specification describes for a foreign
`LocalPrepared` command on a non-complete record: evidence gains the foreign
committee's shard with the justify QC id; `changed_decision` becomes Abort
when the foreign decision is Abort and the local original decision is Commit;
and when the record's stage is `LocalPrepared` and evidence then covers all
shards, the stage becomes `SomePrepared` on a changed decision and
`AllPrepared` otherwise. -/
def foreignSpecRecord (cs : CommitteeShard) (qcId : Nat) (t : TransactionAtom)
    (r : TransactionPoolRecord) : TransactionPoolRecord :=
  let r1 := r.updateEvidence cs.shard qcId
  let r2 :=
    if t.decision = .abort ∧ r.originalDecision = .commit then r1.updateDecision .abort
    else r1
  if r.stage = .localPrepared ∧ r2.allShardsComplete = true then
    if t.decision = .abort ∧ r.originalDecision = .commit then r2.transition .somePrepared true
    else r2.transition .allPrepared true
  else r2

/-- Block fields for the justify-not-found evaluation, before the content
hash is filled in as the id. -/
def c7Fields : Block :=
  { id := 0, parent := 3, justify := ⟨1, 77, 1, 0⟩, epoch := 0, height := 1,
    proposer := 0, commands := [] }

/-- A well-hashed non-genesis block whose justify block (id 77) is unknown to
the store. -/
def c7Block : Block := { c7Fields with id := c7Fields.calculateHash }

/-- Committee shard used in the justify-not-found evaluation. -/
def c7Shard : CommitteeShard := ⟨0, []⟩

/-- Foreign committee shard (shard id 2) for the foreign-proposal evaluation. -/
def c4Shard : CommitteeShard := ⟨2, []⟩

/-- A foreign `LocalPrepared` Abort against a locally committed transaction. -/
def c4Atom : TransactionAtom := ⟨5, .abort⟩

/-- Local pool record at stage `LocalPrepared`, original decision Commit,
with shard 2 the only missing evidence. -/
def c4Record : TransactionPoolRecord :=
  { transactionId := 5, stage := .localPrepared, originalDecision := .commit,
    changedDecision := none, evidence := [], shardsInvolved := [2], isReady := false }

/-- Store holding only the pool record of the foreign-proposal evaluation. -/
def c4Store : StoreState := { emptyStore with pool := [(5, c4Record)] }

/-- Committee shard for the abstention evaluation. -/
def c10Shard : CommitteeShard := ⟨0, []⟩

/-- Pool record still at stage `New`, so an `Accept` command disagrees. -/
def c10Record : TransactionPoolRecord :=
  { transactionId := 5, stage := .new, originalDecision := .commit,
    changedDecision := none, evidence := [], shardsInvolved := [0], isReady := false }

/-- Store for the abstention evaluation: the record above, no markers. -/
def c10Store : StoreState := { emptyStore with pool := [(5, c10Record)] }

/-- A block whose single `Accept` command disagrees with the record stage. -/
def c10Block : Block :=
  { id := 8, parent := 7, justify := ⟨3, 50, 0, 0⟩, epoch := 0, height := 4,
    proposer := 0, commands := [.accept ⟨5, .commit⟩] }

/-- The store after the abstaining `decide_what_to_vote`: `LastVoted` is 4 and
the record's evidence was merged before the disagreement was found. -/
def c10S1 : StoreState :=
  putPool (setLastVoted c10Store 0 4) 5 (c10Record.updateEvidence 0 3)

/-- The store after `update_nodes` on the abstained block. -/
def c10S2 : StoreState := updateHighQc c10S1 c10Block.justify

/-- Committee shard for the full-vote evaluation. -/
def c3Shard : CommitteeShard := ⟨1, []⟩

/-- Pool record at stage `New` with original decision Abort. -/
def c3Record : TransactionPoolRecord :=
  { transactionId := 6, stage := .new, originalDecision := .abort,
    changedDecision := none, evidence := [], shardsInvolved := [1], isReady := false }

/-- Store for the full-vote evaluation. -/
def c3Store : StoreState := { emptyStore with pool := [(6, c3Record)] }

/-- A block whose single `Prepare` command agrees with the record. -/
def c3Block : Block :=
  { id := 11, parent := 10, justify := ⟨4, 60, 0, 0⟩, epoch := 0, height := 2,
    proposer := 0, commands := [.prepare ⟨6, .abort⟩] }

/-- The store after the accepting `decide_what_to_vote` run. -/
def c3S1 : StoreState :=
  putPool (putPool (setLastVoted c3Store 0 2) 6 (c3Record.updateEvidence 1 4)) 6
    ((c3Record.updateEvidence 1 4).transition .prepared true)

/-- The substate is not write-locked by the given transaction. -/
def notWriteLockedBy (txId : Nat) (st : LockState) : Prop :=
  ∀ o, st = .writeLocked o → o ≠ txId

/-- The substate holds no read lock of the given transaction. -/
def notReadLockedBy (txId : Nat) (st : LockState) : Prop :=
  ∀ rs, st = .readLocked rs → txId ∉ rs

/-- What the commit path guarantees (the amended three-chain claim): when the
`LastExecuted` marker is `le`, the blocks committed by `on_commit` on the
processed block `b` are exactly the parent-chain ancestors of `b` with height
above `le`, up to and including `b` itself, in parent-chain order; and for
every `Accept(t)` command of a committed block, in the resulting store the
pool record is removed, the executed transaction is stamped with the final
decision, the substate diff was applied through the state manager exactly
when the decision is Commit, and the transaction's Write locks over its
inputs and Read locks over its input refs are released. -/
def CommitSpec (cs : CommitteeShard) (le : Nat) (s s' : StoreState) (b : Block)
    (committed : List Block) : Prop :=
  (b.height ≤ le → committed = [] ∧ s' = s) ∧
  (le < b.height → committed ≠ [] ∧ committed.getLast? = some b) ∧
  (∀ x ∈ committed, le < x.height) ∧
  List.Chain' (fun x y => lookupA y.parent s.blocks = some x) committed ∧
  (∀ c, committed.head? = some c →
    ∃ pb, lookupA c.parent s.blocks = some pb ∧ pb.height ≤ le) ∧
  (∀ x ∈ committed, ∀ t : TransactionAtom, Command.accept t ∈ x.commands →
    lookupA t.id s'.pool = none ∧
    ∃ e : ExecutedTransaction, lookupA t.id s'.execTxs = some e ∧
      e.finalDecision = some t.decision ∧
      (t.decision = .commit → (x.id, t.id) ∈ s'.stateCommits) ∧
      (t.decision = .abort → (x.id, t.id) ∉ s.stateCommits →
        (x.id, t.id) ∉ s'.stateCommits) ∧
      (∀ i ∈ cs.filterIds (e.transaction.inputs ++ e.transaction.filledInputs),
        notWriteLockedBy e.transaction.id (s'.locks i)) ∧
      (∀ i ∈ cs.filterIds e.transaction.inputRefs,
        notReadLockedBy e.transaction.id (s'.locks i)))

/-- Committee shard for the three-chain counterexample. -/
def c5Shard : CommitteeShard := ⟨0, []⟩

/-- Pool record for transaction 42, referenced by the skipped block. -/
def c5Record : TransactionPoolRecord :=
  { transactionId := 42, stage := .somePrepared, originalDecision := .commit,
    changedDecision := some .abort, evidence := [(0, 1)], shardsInvolved := [0],
    isReady := true }

/-- `b`, the tail of the three-chain (height 1 = LastExecuted + 1), carrying
an `Accept` command. -/
def c5B : Block :=
  { id := 6, parent := 0, justify := ⟨60, 0, 0, 0⟩, epoch := 0, height := 1,
    proposer := 0, commands := [.accept ⟨42, .commit⟩] }

/-- `b'`, justifying `b` and linked to it by parent. -/
def c5B7 : Block :=
  { id := 7, parent := 6, justify := ⟨70, 6, 1, 0⟩, epoch := 0, height := 2,
    proposer := 0, commands := [] }

/-- `b''`, justifying `b'` and linked to it by parent. -/
def c5B8 : Block :=
  { id := 8, parent := 7, justify := ⟨80, 7, 2, 0⟩, epoch := 0, height := 3,
    proposer := 0, commands := [] }

/-- The parent of the processed block, at height 0 and off the justify
chain. -/
def c5B99 : Block :=
  { id := 99, parent := 0, justify := ⟨990, 0, 0, 0⟩, epoch := 0, height := 0,
    proposer := 0, commands := [] }

/-- The processed block `b*`: its justify certifies `b''`, but its parent (99)
bypasses the justify chain entirely. -/
def c5Star : Block :=
  { id := 10, parent := 99, justify := ⟨100, 8, 3, 0⟩, epoch := 0, height := 4,
    proposer := 0, commands := [] }

/-- Store for the three-chain counterexample: the full justify chain is known,
`LastExecuted` is 0 and the locked block is `b`. -/
def c5Store : StoreState :=
  { emptyStore with
    blocks := [(6, c5B), (7, c5B7), (8, c5B8), (99, c5B99), (10, c5Star)],
    lockedBlock := [(0, (6, 1))],
    lastExecuted := [(0, 0)],
    pool := [(42, c5Record)] }

/-- Committee shard (covering substates 11 and 12) for the commit-spec
witness. -/
def c5wShard : CommitteeShard := ⟨0, [11, 12]⟩

/-- Genesis-like block 1, whose justify certifies itself, giving a trivially
satisfied three-chain at bootstrap. -/
def c5wG : Block :=
  { id := 1, parent := 1, justify := ⟨10, 1, 0, 0⟩, epoch := 0, height := 0,
    proposer := 0, commands := [] }

/-- The processed block: height 1 on top of block 1, carrying
`Accept(5, Commit)`. -/
def c5wBlock : Block :=
  { id := 2, parent := 1, justify := ⟨20, 1, 0, 0⟩, epoch := 0, height := 1,
    proposer := 0, commands := [.accept ⟨5, .commit⟩] }

/-- Pool record for transaction 5, ready to be accepted. -/
def c5wRecord : TransactionPoolRecord :=
  { transactionId := 5, stage := .allPrepared, originalDecision := .commit,
    changedDecision := none, evidence := [(0, 10)], shardsInvolved := [0],
    isReady := true }

/-- Executed transaction 5: writes substate 11, reads substate 12. -/
def c5wExec : ExecutedTransaction :=
  { transaction := { id := 5, inputs := [11], filledInputs := [], inputRefs := [12] },
    finalDecision := none }

/-- Store for the commit-spec witness: transaction 5 holds its prepare-time
locks, the markers are at height 0. -/
def c5wStore : StoreState :=
  { emptyStore with
    blocks := [(1, c5wG), (2, c5wBlock)],
    lockedBlock := [(0, (1, 0))],
    lastExecuted := [(0, 0)],
    pool := [(5, c5wRecord)],
    execTxs := [(5, c5wExec)],
    locks := fun i =>
      if i = 11 then .writeLocked 5 else if i = 12 then .readLocked [5] else .unlocked }

/-- The store after the high-QC update on the witness store. -/
def c5wS0 : StoreState := updateHighQc c5wStore c5wBlock.justify

/-- The store after executing the witness block's `Accept` command. -/
def c5wS2 : StoreState :=
  setExecTx
    (removePool
      { c5wS0 with
        stateCommits := c5wS0.stateCommits ++ [(2, 5)],
        locks := unlockInputs c5wShard c5wExec.transaction c5wS0.locks } 5)
    5 { c5wExec with finalDecision := some .commit }

/-- The final store of the commit-spec witness run. -/
def c5wSFinal : StoreState := setLastExecuted c5wS2 0 1

/-! ### Small lemmas about the store primitives -/

@[simp] theorem lookupA_nil {α : Type} (k : Nat) : lookupA k ([] : List (Nat × α)) = none := rfl

theorem lookupA_putA_self {α : Type} (k : Nat) (v : α) (l : List (Nat × α)) :
    lookupA k (putA k v l) = some v := by
  induction l with
  | nil => simp [putA, lookupA]
  | cons hd tl ih =>
    by_cases h : hd.1 = k
    · simp [putA, h, lookupA]
    · simp [putA, h, lookupA, ih]

theorem lookupA_putA_ne {α : Type} {k k' : Nat} (v : α) (l : List (Nat × α))
    (h : k' ≠ k) : lookupA k' (putA k v l) = lookupA k' l := by
  have h' : ¬k = k' := fun hk => h hk.symm
  induction l with
  | nil => simp [putA, lookupA, h']
  | cons hd tl ih =>
    by_cases hh : hd.1 = k
    · subst hh
      simp [putA, lookupA, h']
    · simp only [putA, if_neg hh, lookupA]
      by_cases hk2 : hd.1 = k'
      · simp [hk2]
      · simp [hk2, ih]

theorem lookupA_removeA_self {α : Type} (k : Nat) (l : List (Nat × α)) :
    lookupA k (removeA k l) = none := by
  induction l with
  | nil => simp [removeA, lookupA]
  | cons hd tl ih =>
    by_cases h : hd.1 = k
    · simp [removeA, h, ih]
    · simp [removeA, lookupA, h, ih]

theorem lookupA_removeA_ne {α : Type} {k k' : Nat} (l : List (Nat × α))
    (h : k' ≠ k) : lookupA k' (removeA k l) = lookupA k' l := by
  induction l with
  | nil => simp [removeA]
  | cons hd tl ih =>
    by_cases hh : hd.1 = k
    · subst hh
      have h' : ¬hd.1 = k' := fun hk => h hk.symm
      simp [removeA, lookupA, h', ih]
    · simp only [removeA, if_neg hh, lookupA]
      by_cases hk2 : hd.1 = k'
      · simp [hk2]
      · simp [hk2, ih]

@[simp] theorem putPool_execTxs (s : StoreState) (k : Nat) (r : TransactionPoolRecord) :
    (putPool s k r).execTxs = s.execTxs := rfl

@[simp] theorem putPool_locks (s : StoreState) (k : Nat) (r : TransactionPoolRecord) :
    (putPool s k r).locks = s.locks := rfl

@[simp] theorem putPool_lastVoted (s : StoreState) (k : Nat) (r : TransactionPoolRecord) :
    (putPool s k r).lastVoted = s.lastVoted := rfl

@[simp] theorem putPool_blocks (s : StoreState) (k : Nat) (r : TransactionPoolRecord) :
    (putPool s k r).blocks = s.blocks := rfl

@[simp] theorem putPool_pool (s : StoreState) (k : Nat) (r : TransactionPoolRecord) :
    (putPool s k r).pool = putA k r s.pool := rfl

@[simp] theorem updateEvidence_stage (r : TransactionPoolRecord) (sh q : Nat) :
    (r.updateEvidence sh q).stage = r.stage := rfl

@[simp] theorem updateEvidence_originalDecision (r : TransactionPoolRecord) (sh q : Nat) :
    (r.updateEvidence sh q).originalDecision = r.originalDecision := rfl

@[simp] theorem updateEvidence_changedDecision (r : TransactionPoolRecord) (sh q : Nat) :
    (r.updateEvidence sh q).changedDecision = r.changedDecision := rfl

@[simp] theorem updateEvidence_finalDecision (r : TransactionPoolRecord) (sh q : Nat) :
    (r.updateEvidence sh q).finalDecision = r.finalDecision := rfl

@[simp] theorem updateDecision_stage (r : TransactionPoolRecord) (d : Decision) :
    (r.updateDecision d).stage = r.stage := rfl

@[simp] theorem transition_stage (r : TransactionPoolRecord) (st : TransactionPoolStage)
    (b : Bool) : (r.transition st b).stage = st := rfl

theorem tryLockMany_failure_unchanged (owner : Nat) (ids : List Nat)
    (flag : SubstateLockFlag) (locks : Nat → LockState)
    (h : (tryLockMany owner ids flag locks).2 = false) :
    (tryLockMany owner ids flag locks).1 = locks := by
  unfold tryLockMany at h ⊢
  by_cases hc : (ids.all fun i => canLock (locks i) flag) = true
  · rw [if_pos hc] at h
    exact absurd h (by simp)
  · rw [if_neg hc]

/-! ### Claim theorems -/

/-- C1: `is_safe_block` is NOT the disjunction the specification states: on a
block that extends the locked block (safety rule holds) while its justify
height does not exceed the locked height (liveness rule fails), the code
returns `false`, although the disjunctive safe-node predicate — which the
code's own doc comment states — is `true`.  The implementation is the
conjunction of the two rules. -/
theorem safe_node_conjunction_eval :
    isSafeBlock c1Store c1Block c1Locked = false ∧
    extendsChain c1Store c1Block.height c1Block c1Locked = true ∧
    c1Block.justify.blockHeight ≤ c1Locked.height ∧
    specSafeNode c1Store c1Block c1Locked = true := by
  refine ⟨by decide, by decide, by decide, by decide⟩

/-- C2 counterexample: `lock_inputs` is not atomic over the whole requested
set — when the Write acquisition over the inputs succeeds and the Read
acquisition over the input refs then fails, `lock_inputs` reports failure yet
the Write lock on substate 1 remains held, so the lock state differs from the
state before the acquisition. -/
theorem lock_inputs_not_atomic_cex :
    (lockInputs c2Shard c2Tx c2Locks).2 = false ∧
    (lockInputs c2Shard c2Tx c2Locks).1 1 = .writeLocked c2Tx.id ∧
    c2Locks 1 = .unlocked := by
  refine ⟨by decide, by decide, by decide⟩

/-- C2 (amended): when `lock_inputs` fails, the lock state is unchanged if the
Write acquisition over `inputs ++ filled_inputs` failed (each `try_lock_many`
is all-or-none), but if the Write acquisition succeeded and the Read
acquisition over `input_refs` failed, the Write locks just acquired remain
held: the resulting table is the table after the Write acquisition. -/
theorem lock_inputs_failure_state (cs : CommitteeShard) (t : Transaction)
    (locks : Nat → LockState) (h : (lockInputs cs t locks).2 = false) :
    (lockInputs cs t locks).1 =
      (if (tryLockMany t.id (cs.filterIds (t.inputs ++ t.filledInputs)) .write locks).2 then
        (tryLockMany t.id (cs.filterIds (t.inputs ++ t.filledInputs)) .write locks).1
      else locks) := by
  cases hb1 : (tryLockMany t.id (cs.filterIds (t.inputs ++ t.filledInputs)) .write locks).2 with
  | false =>
    simp only [lockInputs, hb1] at h ⊢
    simp [tryLockMany_failure_unchanged _ _ _ _ hb1]
  | true =>
    cases hb2 : (tryLockMany t.id (cs.filterIds t.inputRefs) .read
        (tryLockMany t.id (cs.filterIds (t.inputs ++ t.filledInputs)) .write locks).1).2 with
    | false =>
      simp only [lockInputs, hb1, hb2] at h ⊢
      simp [tryLockMany_failure_unchanged _ _ _ _ hb2]
    | true =>
      simp [lockInputs, hb1, hb2] at h

/-- C2 witness: the amended statement evaluated at the concrete failing
acquisition. -/
theorem lock_inputs_failure_state_witness :
    (lockInputs c2Shard c2Tx c2Locks).2 = false ∧
    (lockInputs c2Shard c2Tx c2Locks).1 =
      (if (tryLockMany c2Tx.id (c2Shard.filterIds (c2Tx.inputs ++ c2Tx.filledInputs))
          .write c2Locks).2 then
        (tryLockMany c2Tx.id (c2Shard.filterIds (c2Tx.inputs ++ c2Tx.filledInputs))
          .write c2Locks).1
      else c2Locks) :=
  ⟨by decide, lock_inputs_failure_state c2Shard c2Tx c2Locks (by decide)⟩

/-- C6: on the first proposal of an epoch with no `LastVoted` marker,
`should_vote` returns `true` without evaluating the safe-node predicate —
here the predicate is `false` for the block (both as implemented and as the
doc comment's disjunction), yet the vote is allowed.  The claim (and the
code's own doc comment) requires voting only when the safe-node predicate
holds. -/
theorem should_vote_no_last_voted_eval :
    lookupA c6Block.epoch c6Store.lastVoted = none ∧
    shouldVote c6Store c6Block = .ok true ∧
    isSafeBlock c6Store c6Block c6Locked = false ∧
    specSafeNode c6Store c6Block c6Locked = false := by
  refine ⟨by decide, by decide, by decide, by decide⟩

/-- C8: when both resolver calls succeed and the executor result carries an
accepted diff, the resolved lock intents cover exactly the versioned resolved
inputs, each input downed by the diff with Write intent and every other input
with Read intent, at the version fixed by resolution. -/
theorem execute_transaction_lock_intents
    (inputs : List (Nat × Nat)) (executed out : MempoolExecutedTransaction)
    (diff : SubstateDiff)
    (hrun : executeTransaction (.ok ()) (.ok inputs) (.ok executed) = .ok (.ok out))
    (hacc : executed.finalizeAccept = some diff) :
    out.resolvedInputs =
      ((inputs.map fun p => VersionedSubstateId.mk p.1 p.2).dedup).map
        (fun v => VersionedSubstateIdLockIntent.mk v
          (if diff.downSubstates.any (fun d => d.1 = v.substateId) then .write else .read)) ∧
    ∀ p ∈ inputs,
      VersionedSubstateIdLockIntent.mk ⟨p.1, p.2⟩
        (if diff.downSubstates.any (fun d => d.1 = p.1) then .write else .read) ∈
          out.resolvedInputs := by
  simp only [executeTransaction, hacc] at hrun
  simp only [Except.ok.injEq] at hrun
  subst hrun
  refine ⟨rfl, ?_⟩
  intro p hp
  have hv : VersionedSubstateId.mk p.1 p.2 ∈
      (inputs.map fun q => VersionedSubstateId.mk q.1 q.2).dedup :=
    List.mem_dedup.mpr (List.mem_map_of_mem _ hp)
  exact List.mem_map_of_mem _ hv

/-- C8 witness: the lock-intent assignment evaluated at a concrete execution
with substate 4 downed (Write) and substate 5 untouched (Read). -/
theorem execute_transaction_lock_intents_witness :
    executeTransaction (.ok ()) (.ok c8Inputs) (.ok c8Executed) = .ok (.ok c8Out) ∧
    (c8Out.resolvedInputs =
      ((c8Inputs.map fun p => VersionedSubstateId.mk p.1 p.2).dedup).map
        (fun v => VersionedSubstateIdLockIntent.mk v
          (if c8Diff.downSubstates.any (fun d => d.1 = v.substateId) then .write
            else .read)) ∧
    ∀ p ∈ c8Inputs,
      VersionedSubstateIdLockIntent.mk ⟨p.1, p.2⟩
        (if c8Diff.downSubstates.any (fun d => d.1 = p.1) then .write else .read) ∈
          c8Out.resolvedInputs) :=
  ⟨by decide, execute_transaction_lock_intents c8Inputs c8Executed c8Out c8Diff
    (by decide) (by decide)⟩

/-- C9: the gossip services' `subscribe` is idempotent — when already
subscribed to the epoch's shard group (respectively bucket) the state is
unchanged and no topic operation is issued — and subscribe–unsubscribe–
subscribe for the same epoch ends in the same subscription state as a single
subscribe, for both the consensus and mempool gossip services. -/
theorem gossip_subscribe_laws (f : Nat → ShardGroup) (g : Nat → Nat) (e : Nat)
    (st : ConsensusGossipState) (mt : MempoolGossipState)
    (st2 : ConsensusGossipState) (mt2 : MempoolGossipState)
    (hs : st.isSubscribed = some (f e)) (hm : mt.isSubscribed = some (g e)) :
    consensusGossipSubscribe f e st = (st, []) ∧
    mempoolGossipSubscribe g e mt = (mt, []) ∧
    (consensusGossipSubscribe f e
      (consensusGossipUnsubscribe (consensusGossipSubscribe f e st2).1).1).1 =
      (consensusGossipSubscribe f e st2).1 ∧
    (mempoolGossipSubscribe g e
      (mempoolGossipUnsubscribe (mempoolGossipSubscribe g e mt2).1).1).1 =
      (mempoolGossipSubscribe g e mt2).1 := by
  refine ⟨?_, ?_, ?_, ?_⟩
  · simp [consensusGossipSubscribe, hs]
  · simp [mempoolGossipSubscribe, hm]
  · rcases st2 with ⟨sub⟩
    cases sub with
    | none => simp [consensusGossipSubscribe, consensusGossipUnsubscribe]
    | some cur =>
      by_cases hc : cur = f e
      · subst hc
        simp [consensusGossipSubscribe, consensusGossipUnsubscribe]
      · simp [consensusGossipSubscribe, consensusGossipUnsubscribe, hc]
  · rcases mt2 with ⟨sub⟩
    cases sub with
    | none => simp [mempoolGossipSubscribe, mempoolGossipUnsubscribe]
    | some cur =>
      by_cases hc : cur = g e
      · subst hc
        simp [mempoolGossipSubscribe, mempoolGossipUnsubscribe]
      · simp [mempoolGossipSubscribe, mempoolGossipUnsubscribe, hc]

/-- C9 witness: the subscription laws evaluated at a concrete subscribed
state for both services. -/
theorem gossip_subscribe_laws_witness :
    (ConsensusGossipState.mk (some ⟨1, 2⟩)).isSubscribed = some (c9ShardGroupFor 0) ∧
    (MempoolGossipState.mk (some 4)).isSubscribed = some (c9BucketFor 0) ∧
    consensusGossipSubscribe c9ShardGroupFor 0 ⟨some ⟨1, 2⟩⟩ = (⟨some ⟨1, 2⟩⟩, []) :=
  ⟨rfl, rfl,
    (gossip_subscribe_laws c9ShardGroupFor c9BucketFor 0 ⟨some ⟨1, 2⟩⟩ ⟨some 4⟩
      ⟨none⟩ ⟨none⟩ rfl rfl).1⟩

@[simp] theorem updateDecision_changedDecision (r : TransactionPoolRecord) (d : Decision) :
    (r.updateDecision d).changedDecision = some d := rfl

theorem isComplete_eq_false {st : TransactionPoolStage} (h : st ≠ .complete) :
    st.isComplete = false := by
  cases st <;> simp [TransactionPoolStage.isComplete] at h ⊢

/-- C7: when the justify block of a local proposal is not stored, handling
returns `JustifyBlockNotFound` and the store is exactly the store before the
call — neither the block nor its justify QC is persisted — and no vote
decision is produced. -/
theorem justify_block_not_found_no_state_change (cs : CommitteeShard) (s : StoreState)
    (b : Block) (hmiss : lookupA b.justify.blockId s.blocks = none)
    (hh : b.height ≠ 0) (hg : b.id ≠ genesisId) (hhash : b.calculateHash = b.id) :
    handleLocalProposal cs s b =
      (s, .error (.proposalValidation (.justifyBlockNotFound b.id b.justify.blockId))) := by
  have h1 : ¬(b.height = 0 ∨ b.id = genesisId) := by
    rintro (hc | hc)
    · exact hh hc
    · exact hg hc
  have h2 : ¬b.calculateHash ≠ b.id := fun hc => hc hhash
  have hv : validateProposedBlock b = .ok () := by
    unfold validateProposedBlock
    rw [if_neg h1, if_neg h2]
  have hvl : validateLocalProposedBlock s b =
      .error (.justifyBlockNotFound b.id b.justify.blockId) := by
    unfold validateLocalProposedBlock
    simp only [hv, hmiss]
  unfold handleLocalProposal
  simp only [hvl]

/-- C7 witness: the justify-not-found behaviour evaluated on a concrete
well-hashed block against the empty store. -/
theorem justify_block_not_found_no_state_change_witness :
    lookupA c7Block.justify.blockId emptyStore.blocks = none ∧
    c7Block.height ≠ 0 ∧ c7Block.id ≠ genesisId ∧
    c7Block.calculateHash = c7Block.id ∧
    handleLocalProposal c7Shard emptyStore c7Block =
      (emptyStore,
        .error (.proposalValidation
          (.justifyBlockNotFound c7Block.id c7Block.justify.blockId))) :=
  ⟨rfl, by decide, by decide, rfl,
    justify_block_not_found_no_state_change c7Shard emptyStore c7Block rfl
      (by decide) (by decide) rfl⟩

/-- C4: `on_receive_foreign_block` folds the foreign per-command step over the
block's commands after saving the justify QC; the step turns a `LocalPrepared`
command with a non-complete pool record into exactly the specification's
record transform (evidence update, changed decision on foreign Abort against
local Commit, and the `SomePrepared`/`AllPrepared` transition when the stage
was `LocalPrepared` and evidence became complete), and it leaves the state
unchanged for complete records, missing records, and non-`LocalPrepared`
commands. -/
theorem on_receive_foreign_block_spec (cs : CommitteeShard) (qcId : Nat) :
    (∀ s b, onReceiveForeignBlock cs s b =
      b.commands.foldl (foreignStep cs b.justify.qcId) (saveQc s b.justify)) ∧
    (∀ s t r, lookupA t.id s.pool = some r → r.stage ≠ .complete →
      foreignStep cs qcId s (.localPrepared t) =
        putPool s t.id (foreignSpecRecord cs qcId t r)) ∧
    (∀ s t r, lookupA t.id s.pool = some r → r.stage = .complete →
      foreignStep cs qcId s (.localPrepared t) = s) ∧
    (∀ s t, foreignStep cs qcId s (.prepare t) = s) ∧
    (∀ s t, foreignStep cs qcId s (.accept t) = s) ∧
    (∀ s t, lookupA t.id s.pool = none → foreignStep cs qcId s (.localPrepared t) = s) := by
  refine ⟨fun s b => rfl, ?_, ?_, fun s t => rfl, fun s t => rfl, ?_⟩
  · intro s t r hl hnc
    unfold foreignStep foreignSpecRecord
    simp only [Command.localPreparedAtom, hl, isComplete_eq_false hnc]
    cases ht : t.decision <;> cases hr : r.originalDecision <;>
      simp [Decision.isAbort, Decision.isCommit, ht, hr]
  · intro s t r hl hc
    unfold foreignStep
    simp only [Command.localPreparedAtom, hl, hc]
    simp [TransactionPoolStage.isComplete]
  · intro s t hl
    unfold foreignStep
    simp only [Command.localPreparedAtom, hl]

/-- C4 witness: the foreign step evaluated on a concrete foreign Abort
against a local `LocalPrepared` Commit record whose evidence becomes
complete. -/
theorem on_receive_foreign_block_spec_witness :
    lookupA c4Atom.id c4Store.pool = some c4Record ∧
    c4Record.stage ≠ .complete ∧
    foreignStep c4Shard 9 c4Store (.localPrepared c4Atom) =
      putPool c4Store c4Atom.id (foreignSpecRecord c4Shard 9 c4Atom c4Record) :=
  ⟨rfl, by decide,
    (on_receive_foreign_block_spec c4Shard 9).2.1 c4Store c4Atom c4Record rfl (by decide)⟩

theorem updateHighQc_lastVoted (s : StoreState) (qc : QuorumCertificate) :
    (updateHighQc s qc).lastVoted = s.lastVoted := by
  unfold updateHighQc
  split
  · rfl
  · split <;> rfl

theorem decideCommands_lastVoted (cs : CommitteeShard) (qcId : Nat) :
    ∀ (cmds : List Command) (s : StoreState) (p : StoreState × Option QuorumDecision),
      decideCommands cs qcId s cmds = .ok p → p.1.lastVoted = s.lastVoted := by
  intro cmds
  induction cmds with
  | nil =>
    intro s p h
    simp only [decideCommands] at h
    cases h
    rfl
  | cons cmd rest ih =>
    intro s p h
    simp only [decideCommands] at h
    split at h
    · exact Except.noConfusion h
    · repeat'
        first
          | exact Except.noConfusion h
          | (have hx := ih _ _ h; exact hx)
          | (cases h; rfl)
          | split at h

theorem executeCommand_lastVoted (cs : CommitteeShard) (blockId : Nat) (s : StoreState)
    (cmd : Command) (s' : StoreState) (h : executeCommand cs blockId s cmd = .ok s') :
    s'.lastVoted = s.lastVoted := by
  simp only [executeCommand] at h
  split at h
  · exact Except.noConfusion h
  · repeat'
      first
        | exact Except.noConfusion h
        | (cases h; rfl)
        | split at h

theorem execCmds_lastVoted (cs : CommitteeShard) (blockId : Nat) :
    ∀ (cmds : List Command) (s s' : StoreState),
      execCmds cs blockId s cmds = .ok s' → s'.lastVoted = s.lastVoted := by
  intro cmds
  induction cmds with
  | nil =>
    intro s s' h
    simp only [execCmds] at h
    cases h
    rfl
  | cons cmd rest ih =>
    intro s s' h
    simp only [execCmds] at h
    split at h
    · exact Except.noConfusion h
    · rename_i s1 h1
      exact (ih _ _ h).trans (executeCommand_lastVoted _ _ _ _ _ h1)

theorem onCommit_lastVoted (cs : CommitteeShard) (lastExec : Nat) :
    ∀ (fuel : Nat) (s : StoreState) (b : Block) (p : StoreState × List Block),
      onCommit cs lastExec fuel s b = .ok p → p.1.lastVoted = s.lastVoted := by
  intro fuel
  induction fuel with
  | zero => intro s b p h; exact Except.noConfusion h
  | succ n ih =>
    intro s b p h
    simp only [onCommit] at h
    by_cases hlt : lastExec < b.height
    · rw [if_pos hlt] at h
      cases hpar : lookupA b.parent s.blocks with
      | none => simp only [hpar] at h; exact Except.noConfusion h
      | some parent =>
        simp only [hpar] at h
        cases hrec : onCommit cs lastExec n s parent with
        | error e => simp only [hrec] at h; exact Except.noConfusion h
        | ok q =>
          obtain ⟨s1, l1⟩ := q
          simp only [hrec] at h
          cases hex : executeBlock cs s1 b with
          | error e => simp only [hex] at h; exact Except.noConfusion h
          | ok s2 =>
            simp only [hex, Except.ok.injEq] at h
            rw [← h]
            exact (execCmds_lastVoted _ _ _ _ _ hex).trans (ih _ _ _ hrec)
    · rw [if_neg hlt] at h
      cases h
      rfl

theorem updateNodes_lastVoted (cs : CommitteeShard) (s : StoreState) (b : Block)
    (p : StoreState × List Block) (h : updateNodes cs s b = .ok p) :
    p.1.lastVoted = s.lastVoted := by
  simp only [updateNodes] at h
  cases h1 : lookupA b.justify.blockId (updateHighQc s b.justify).blocks with
  | none =>
    simp only [h1, Except.ok.injEq] at h
    rw [← h]
    exact updateHighQc_lastVoted s b.justify
  | some commitNode =>
    simp only [h1] at h
    cases h2 : lookupA commitNode.justify.blockId (updateHighQc s b.justify).blocks with
    | none =>
      simp only [h2, Except.ok.injEq] at h
      rw [← h]
      exact updateHighQc_lastVoted s b.justify
    | some precommitNode =>
      simp only [h2] at h
      cases h3 : lookupA b.epoch (updateHighQc s b.justify).lockedBlock with
      | none => simp only [h3] at h; exact Except.noConfusion h
      | some locked =>
        simp only [h3] at h
        set s1 := if locked.2 < precommitNode.height then
            setLockedBlock (updateHighQc s b.justify) b.epoch
              (precommitNode.id, precommitNode.height)
          else updateHighQc s b.justify with hs1
        have hs1lv : s1.lastVoted = s.lastVoted := by
          rw [hs1]
          split <;> exact updateHighQc_lastVoted s b.justify
        by_cases h4 : commitNode.parent = precommitNode.id ∧
            precommitNode.parent = precommitNode.justify.blockId
        · rw [if_pos h4] at h
          cases h5 : lookupA b.epoch s1.lastExecuted with
          | none => simp only [h5] at h; exact Except.noConfusion h
          | some lastExec =>
            simp only [h5] at h
            cases h6 : onCommit cs lastExec (b.height + 1) s1 b with
            | error e => simp only [h6] at h; exact Except.noConfusion h
            | ok q =>
              obtain ⟨s2, committed⟩ := q
              simp only [h6, Except.ok.injEq] at h
              rw [← h]
              exact (onCommit_lastVoted cs _ _ _ _ _ h6).trans hs1lv
        · rw [if_neg h4] at h
          simp only [Except.ok.injEq] at h
          rw [← h]
          exact hs1lv

/-- C10: abstention does not roll the write transaction back — when
`decide_what_to_vote` returns no vote, `process_block` still commits the state
that run produced (passed through `update_nodes`), so the `LastVoted` marker
remains advanced to the block height and the mutations made for the commands
processed before the disagreement persist in the committed state. -/
theorem abstain_still_commits (cs : CommitteeShard) (s : StoreState) (b : Block)
    (s1 s2 : StoreState) (l : List Block)
    (hsv : shouldVote s b = .ok true)
    (hd : decideWhatToVote cs s b = .ok (s1, none))
    (hu : updateNodes cs s1 b = .ok (s2, l)) :
    processBlock cs s b = (s2, .ok none) ∧
    lookupA b.epoch s1.lastVoted = some b.height ∧
    lookupA b.epoch s2.lastVoted = some b.height := by
  have hlv1 : s1.lastVoted = putA b.epoch b.height s.lastVoted :=
    decideCommands_lastVoted cs b.justify.qcId b.commands _ _ hd
  have hlv2 : s2.lastVoted = s1.lastVoted := updateNodes_lastVoted cs s1 b (s2, l) hu
  refine ⟨?_, ?_, ?_⟩
  · unfold processBlock
    simp only [hsv, hd, hu, bind, Except.bind, pure, if_true]
  · rw [hlv1]
    exact lookupA_putA_self _ _ _
  · rw [hlv2, hlv1]
    exact lookupA_putA_self _ _ _

/-- C10 witness: the abstention behaviour evaluated on a concrete block whose
single `Accept` command disagrees with the pool record's stage. -/
theorem abstain_still_commits_witness :
    shouldVote c10Store c10Block = .ok true ∧
    decideWhatToVote c10Shard c10Store c10Block = .ok (c10S1, none) ∧
    updateNodes c10Shard c10S1 c10Block = .ok (c10S2, []) ∧
    (processBlock c10Shard c10Store c10Block = (c10S2, .ok none) ∧
      lookupA c10Block.epoch c10S1.lastVoted = some c10Block.height ∧
      lookupA c10Block.epoch c10S2.lastVoted = some c10Block.height) :=
  ⟨rfl, rfl, rfl,
    abstain_still_commits c10Shard c10Store c10Block c10S1 c10S2 [] rfl rfl rfl⟩

theorem decideCommands_accept_iff (cs : CommitteeShard) (qcId : Nat) :
    ∀ (cmds : List Command) (s : StoreState) (p : StoreState × Option QuorumDecision),
      decideCommands cs qcId s cmds = .ok p →
      (p.2 = some .accept ↔ passList cs qcId s cmds = true) := by
  intro cmds
  induction cmds with
  | nil =>
    intro s p h
    simp only [decideCommands] at h
    cases h
    simp [passList]
  | cons cmd rest ih =>
    intro s p h
    rw [passList]
    cases cmd with
    | prepare t =>
      simp only [decideCommands] at h
      cases hl : lookupA (Command.prepare t).transactionId s.pool with
      | none => simp only [hl] at h; exact Except.noConfusion h
      | some r0 =>
        simp only [hl] at h
        by_cases h1 : (r0.updateEvidence cs.shard qcId).stage = .new
        · rw [if_neg (not_not_intro h1)] at h
          by_cases h2 : (r0.updateEvidence cs.shard qcId).originalDecision = t.decision
          · rw [if_pos h2] at h
            by_cases h3 : (r0.updateEvidence cs.shard qcId).originalDecision = .commit
            · rw [if_pos h3] at h
              simp only [putPool_execTxs, putPool_locks] at h
              cases he : lookupA t.id s.execTxs with
              | none => simp only [he] at h; exact Except.noConfusion h
              | some executed =>
                simp only [he] at h
                cases hlk : (lockInputs cs executed.transaction s.locks).2 with
                | false =>
                  rw [if_pos hlk] at h
                  cases h
                  have hck : cmdCheck cs qcId s (.prepare t) = false := by
                    simp [cmdCheck, hl, show r0.originalDecision = .commit from h3,
                      he, hlk]
                  simp [hck]
                | true =>
                  rw [if_neg (by simp [hlk])] at h
                  have hck : cmdCheck cs qcId s (.prepare t) = true := by
                    simp [cmdCheck, hl, show r0.stage = .new from h1,
                      show r0.originalDecision = t.decision from h2,
                      show r0.originalDecision = .commit from h3, he, hlk]
                  rw [hck, Bool.true_and]
                  have happ : applyCommandPass cs qcId s (.prepare t) =
                      putPool
                        { putPool s (Command.prepare t).transactionId
                            (r0.updateEvidence cs.shard qcId) with
                          locks := (lockInputs cs executed.transaction s.locks).1 }
                        t.id
                        ((r0.updateEvidence cs.shard qcId).transition .prepared true) := by
                    simp only [applyCommandPass, hl, if_pos h3, putPool_execTxs, he,
                      putPool_locks]
                    try rfl
                  rw [happ]
                  exact ih _ _ h
            · rw [if_neg h3] at h
              have hck : cmdCheck cs qcId s (.prepare t) = true := by
                have htd : ¬t.decision = Decision.commit := fun hc => h3 (h2.trans hc)
                simp [cmdCheck, hl, show r0.stage = .new from h1,
                  show r0.originalDecision = t.decision from h2, htd]
              rw [hck, Bool.true_and]
              have happ : applyCommandPass cs qcId s (.prepare t) =
                  putPool (putPool s (Command.prepare t).transactionId
                      (r0.updateEvidence cs.shard qcId)) t.id
                    ((r0.updateEvidence cs.shard qcId).transition .prepared true) := by
                simp only [applyCommandPass, hl, if_neg h3]
                try rfl
              rw [happ]
              exact ih _ _ h
          · rw [if_neg h2] at h
            cases h
            have hck : cmdCheck cs qcId s (.prepare t) = false := by
              simp [cmdCheck, hl, show ¬r0.originalDecision = t.decision from h2]
            simp [hck]
        · rw [if_pos h1] at h
          cases h
          have hck : cmdCheck cs qcId s (.prepare t) = false := by
            simp [cmdCheck, hl, show ¬r0.stage = .new from h1]
          simp [hck]
    | localPrepared t =>
      simp only [decideCommands] at h
      cases hl : lookupA (Command.localPrepared t).transactionId s.pool with
      | none => simp only [hl] at h; exact Except.noConfusion h
      | some r0 =>
        simp only [hl] at h
        by_cases h1 : (r0.updateEvidence cs.shard qcId).stage = .new
        · rw [if_pos h1] at h
          cases h
          have hck : cmdCheck cs qcId s (.localPrepared t) = false := by
            simp [cmdCheck, hl, show r0.stage = .new from h1]
          simp [hck]
        · rw [if_neg h1] at h
          by_cases h2 : (r0.updateEvidence cs.shard qcId).originalDecision ≠ t.decision ∧
              (r0.updateEvidence cs.shard qcId).changedDecision ≠ some t.decision
          · rw [if_pos h2] at h
            cases h
            have hck : cmdCheck cs qcId s (.localPrepared t) = false := by
              simp [cmdCheck, hl, show ¬r0.originalDecision = t.decision from h2.1,
                show ¬r0.changedDecision = some t.decision from h2.2]
            simp [hck]
          · rw [if_neg h2] at h
            have hck : cmdCheck cs qcId s (.localPrepared t) = true := by
              rcases not_and_or.mp h2 with hx | hx
              · simp [cmdCheck, hl, show ¬r0.stage = .new from h1,
                  show r0.originalDecision = t.decision from not_not.mp hx]
              · simp [cmdCheck, hl, show ¬r0.stage = .new from h1,
                  show r0.changedDecision = some t.decision from not_not.mp hx]
            rw [hck, Bool.true_and]
            by_cases hp : (r0.updateEvidence cs.shard qcId).stage = .prepared
            · simp only [if_pos hp] at h
              by_cases hac :
                  ((r0.updateEvidence cs.shard qcId).transition .localPrepared
                    false).allShardsComplete = true
              · rw [if_pos hac] at h
                by_cases hcd :
                    ((r0.updateEvidence cs.shard qcId).transition .localPrepared
                      false).changedDecision = some .abort
                · rw [if_pos hcd] at h
                  have happ : applyCommandPass cs qcId s (.localPrepared t) =
                      putPool
                        (putPool (putPool s (Command.localPrepared t).transactionId
                            (r0.updateEvidence cs.shard qcId)) t.id
                          ((r0.updateEvidence cs.shard qcId).transition .localPrepared false))
                        t.id
                        (((r0.updateEvidence cs.shard qcId).transition .localPrepared
                          false).transition .somePrepared true) := by
                    simp only [applyCommandPass, hl, if_pos hp, if_pos hac, if_pos hcd]
                    try rfl
                  rw [happ]
                  exact ih _ _ h
                · rw [if_neg hcd] at h
                  have happ : applyCommandPass cs qcId s (.localPrepared t) =
                      putPool
                        (putPool (putPool s (Command.localPrepared t).transactionId
                            (r0.updateEvidence cs.shard qcId)) t.id
                          ((r0.updateEvidence cs.shard qcId).transition .localPrepared false))
                        t.id
                        (((r0.updateEvidence cs.shard qcId).transition .localPrepared
                          false).transition .allPrepared true) := by
                    simp only [applyCommandPass, hl, if_pos hp, if_pos hac, if_neg hcd]
                    try rfl
                  rw [happ]
                  exact ih _ _ h
              · rw [if_neg hac] at h
                have happ : applyCommandPass cs qcId s (.localPrepared t) =
                    putPool (putPool s (Command.localPrepared t).transactionId
                        (r0.updateEvidence cs.shard qcId)) t.id
                      ((r0.updateEvidence cs.shard qcId).transition .localPrepared false) := by
                  simp only [applyCommandPass, hl, if_pos hp, if_neg hac]
                  try rfl
                rw [happ]
                exact ih _ _ h
            · simp only [if_neg hp] at h
              by_cases hac : (r0.updateEvidence cs.shard qcId).allShardsComplete = true
              · rw [if_pos hac] at h
                by_cases hcd :
                    (r0.updateEvidence cs.shard qcId).changedDecision = some .abort
                · rw [if_pos hcd] at h
                  have happ : applyCommandPass cs qcId s (.localPrepared t) =
                      putPool (putPool s (Command.localPrepared t).transactionId
                          (r0.updateEvidence cs.shard qcId)) t.id
                        ((r0.updateEvidence cs.shard qcId).transition .somePrepared true) := by
                    simp only [applyCommandPass, hl, if_neg hp, if_pos hac, if_pos hcd]
                    try rfl
                  rw [happ]
                  exact ih _ _ h
                · rw [if_neg hcd] at h
                  have happ : applyCommandPass cs qcId s (.localPrepared t) =
                      putPool (putPool s (Command.localPrepared t).transactionId
                          (r0.updateEvidence cs.shard qcId)) t.id
                        ((r0.updateEvidence cs.shard qcId).transition .allPrepared true) := by
                    simp only [applyCommandPass, hl, if_neg hp, if_pos hac, if_neg hcd]
                    try rfl
                  rw [happ]
                  exact ih _ _ h
              · rw [if_neg hac] at h
                have happ : applyCommandPass cs qcId s (.localPrepared t) =
                    putPool s (Command.localPrepared t).transactionId
                      (r0.updateEvidence cs.shard qcId) := by
                  simp only [applyCommandPass, hl, if_neg hp, if_neg hac]
                  try rfl
                rw [happ]
                exact ih _ _ h
    | accept t =>
      simp only [decideCommands] at h
      cases hl : lookupA (Command.accept t).transactionId s.pool with
      | none => simp only [hl] at h; exact Except.noConfusion h
      | some r0 =>
        simp only [hl] at h
        by_cases h1 : (r0.updateEvidence cs.shard qcId).stage = .allPrepared ∨
            (r0.updateEvidence cs.shard qcId).stage = .somePrepared
        · rw [if_pos h1] at h
          by_cases h2 : (r0.updateEvidence cs.shard qcId).finalDecision = t.decision
          · rw [if_pos h2] at h
            have hck : cmdCheck cs qcId s (.accept t) = true := by
              rcases h1 with hx | hx <;>
                simp [cmdCheck, hl, show r0.finalDecision = t.decision from h2,
                  show r0.stage = _ from hx]
            rw [hck, Bool.true_and]
            have happ : applyCommandPass cs qcId s (.accept t) =
                putPool (putPool s (Command.accept t).transactionId
                    (r0.updateEvidence cs.shard qcId)) t.id
                  ((r0.updateEvidence cs.shard qcId).transition .complete false) := by
              simp only [applyCommandPass, hl]
              try rfl
            rw [happ]
            exact ih _ _ h
          · rw [if_neg h2] at h
            cases h
            have hck : cmdCheck cs qcId s (.accept t) = false := by
              simp [cmdCheck, hl, show ¬r0.finalDecision = t.decision from h2]
            simp [hck]
        · rw [if_neg h1] at h
          cases h
          have hck : cmdCheck cs qcId s (.accept t) = false := by
            rw [not_or] at h1
            simp [cmdCheck, hl, show ¬r0.stage = .allPrepared from h1.1,
              show ¬r0.stage = .somePrepared from h1.2]
          simp [hck]

/-- C3: given an error-free run, `decide_what_to_vote` returns `Some(Accept)`
if and only if every command in the block passes its per-command check
(`Prepare`: stage `New`, decision equals the original decision, and on Commit
a successful lock acquisition; `LocalPrepared`: stage not `New` and decision
equal to the original or changed decision; `Accept`: stage `AllPrepared` or
`SomePrepared` and decision equal to the pool's final decision), the state
being threaded through the passing mutations; a single mismatch yields no
vote for the whole block. -/
theorem decide_what_to_vote_accept_iff (cs : CommitteeShard) (s : StoreState) (b : Block)
    (p : StoreState × Option QuorumDecision) (h : decideWhatToVote cs s b = .ok p) :
    p.2 = some .accept ↔
      passList cs b.justify.qcId (setLastVoted s b.epoch b.height) b.commands = true :=
  decideCommands_accept_iff cs b.justify.qcId b.commands _ p h

/-- C3 witness: the equivalence evaluated on a concrete one-command block the
voter accepts. -/
theorem decide_what_to_vote_accept_iff_witness :
    decideWhatToVote c3Shard c3Store c3Block = .ok (c3S1, some .accept) ∧
    (((c3S1, some QuorumDecision.accept) : StoreState × Option QuorumDecision).2 =
        some .accept ↔
      passList c3Shard c3Block.justify.qcId
        (setLastVoted c3Store c3Block.epoch c3Block.height) c3Block.commands = true) :=
  ⟨rfl, decide_what_to_vote_accept_iff c3Shard c3Store c3Block (c3S1, some .accept) rfl⟩

/-- C5 counterexample: the three-chain condition holds for the processed
block `b*` (id 10), `b` is block 6 at height 1 = LastExecuted + 1, yet the
commit executes only `b*` itself — the committed list is `[10]`, block 6 is
never committed and the pool record of its `Accept` command survives — because
`on_commit` is called on the processed block and walks its parent chain,
which bypasses the justify chain (`b*.parent = 99 ≠ b''.id`). -/
theorem three_chain_commit_cex :
    threeChainCond c5Store c5Star = true ∧
    lookupA c5Star.epoch c5Store.lastExecuted = some 0 ∧
    c5B.height = 1 ∧
    lookupA c5Star.justify.blockId c5Store.blocks = some c5B8 ∧
    lookupA c5B8.justify.blockId c5Store.blocks = some c5B7 ∧
    c5B7.justify.blockId = c5B.id ∧
    Command.accept ⟨42, .commit⟩ ∈ c5B.commands ∧
    (updateNodes c5Shard c5Store c5Star).map
        (fun q => (q.2.map Block.id, (lookupA 42 q.1.pool).isSome)) =
      Except.ok ([10], true) :=
  ⟨by decide, by decide, by decide, by decide, by decide, by decide, by decide, by decide⟩

theorem releaseLock_notWrite {tid : Nat} (o : Nat) (f : SubstateLockFlag)
    {st : LockState} (h : notWriteLockedBy tid st) :
    notWriteLockedBy tid (releaseLock o f st) := by
  intro o' he
  cases f <;> cases st <;> simp only [releaseLock] at he <;>
    first
      | exact LockState.noConfusion he
      | (cases he; exact h _ rfl)
      | (split at he <;>
          first
            | exact LockState.noConfusion he
            | (cases he; exact h _ rfl))

theorem releaseLock_notRead {tid : Nat} (o : Nat) (f : SubstateLockFlag)
    {st : LockState} (h : notReadLockedBy tid st) :
    notReadLockedBy tid (releaseLock o f st) := by
  intro rs he
  cases f <;> cases st <;> simp only [releaseLock] at he <;>
    first
      | exact LockState.noConfusion he
      | (cases he; exact h _ rfl)
      | (split at he <;>
          first
            | exact LockState.noConfusion he
            | (cases he; intro hm; exact h _ rfl (List.mem_of_mem_filter hm)))

theorem releaseLock_write_self (tid : Nat) (st : LockState) :
    notWriteLockedBy tid (releaseLock tid .write st) := by
  intro o he
  cases st <;> simp only [releaseLock] at he
  · exact LockState.noConfusion he
  · exact LockState.noConfusion he
  · split at he
    · exact LockState.noConfusion he
    · cases he
      rename_i hne
      exact hne

theorem releaseLock_read_self (tid : Nat) (st : LockState) :
    notReadLockedBy tid (releaseLock tid .read st) := by
  intro rs he
  cases st <;> simp only [releaseLock] at he
  · exact LockState.noConfusion he
  · split at he
    · exact LockState.noConfusion he
    · cases he
      intro hm
      have := List.of_mem_filter hm
      simp at this
  · exact LockState.noConfusion he

theorem tryUnlockMany_notWrite {tid : Nat} (o : Nat) (ids : List Nat)
    (f : SubstateLockFlag) (l : Nat → LockState) (i : Nat)
    (h : notWriteLockedBy tid (l i)) :
    notWriteLockedBy tid (tryUnlockMany o ids f l i) := by
  unfold tryUnlockMany
  split
  · exact releaseLock_notWrite _ _ h
  · exact h

theorem tryUnlockMany_notRead {tid : Nat} (o : Nat) (ids : List Nat)
    (f : SubstateLockFlag) (l : Nat → LockState) (i : Nat)
    (h : notReadLockedBy tid (l i)) :
    notReadLockedBy tid (tryUnlockMany o ids f l i) := by
  unfold tryUnlockMany
  split
  · exact releaseLock_notRead _ _ h
  · exact h

theorem tryUnlockMany_point_mem (o : Nat) (ids : List Nat) (f : SubstateLockFlag)
    (l : Nat → LockState) (i : Nat) (hm : ids.contains i = true) :
    tryUnlockMany o ids f l i = releaseLock o f (l i) := by
  have hmem : i ∈ ids := by simpa using hm
  unfold tryUnlockMany
  simp [hmem]

theorem unlockInputs_notWrite {tid : Nat} (cs : CommitteeShard) (tx : Transaction)
    (l : Nat → LockState) (i : Nat) (h : notWriteLockedBy tid (l i)) :
    notWriteLockedBy tid (unlockInputs cs tx l i) :=
  tryUnlockMany_notWrite _ _ _ _ _ (tryUnlockMany_notWrite _ _ _ _ _ h)

theorem unlockInputs_notRead {tid : Nat} (cs : CommitteeShard) (tx : Transaction)
    (l : Nat → LockState) (i : Nat) (h : notReadLockedBy tid (l i)) :
    notReadLockedBy tid (unlockInputs cs tx l i) :=
  tryUnlockMany_notRead _ _ _ _ _ (tryUnlockMany_notRead _ _ _ _ _ h)

theorem unlockInputs_write_est (cs : CommitteeShard) (tx : Transaction)
    (l : Nat → LockState) (i : Nat)
    (hi : i ∈ cs.filterIds (tx.inputs ++ tx.filledInputs)) :
    notWriteLockedBy tx.id (unlockInputs cs tx l i) := by
  have h1 : (cs.filterIds (tx.inputs ++ tx.filledInputs)).contains i = true := by
    simpa using hi
  refine tryUnlockMany_notWrite _ _ _ _ _ ?_
  rw [tryUnlockMany_point_mem _ _ _ _ _ h1]
  exact releaseLock_write_self _ _

theorem unlockInputs_read_est (cs : CommitteeShard) (tx : Transaction)
    (l : Nat → LockState) (i : Nat) (hi : i ∈ cs.filterIds tx.inputRefs) :
    notReadLockedBy tx.id (unlockInputs cs tx l i) := by
  have h2 : (cs.filterIds tx.inputRefs).contains i = true := by simpa using hi
  show notReadLockedBy tx.id
    (tryUnlockMany tx.id (cs.filterIds tx.inputRefs) .read
      (tryUnlockMany tx.id (cs.filterIds (tx.inputs ++ tx.filledInputs)) .write l) i)
  rw [tryUnlockMany_point_mem _ _ _ _ _ h2]
  exact releaseLock_read_self _ _

theorem executeCommand_ok_inv (cs : CommitteeShard) (bid : Nat) (s : StoreState)
    (c : Command) (s' : StoreState) (h : executeCommand cs bid s c = .ok s') :
    (lookupA c.transactionId s.pool ≠ none ∧ (∀ t, c ≠ .accept t) ∧ s' = s) ∨
    (∃ t e0, c = .accept t ∧ lookupA t.id s.pool ≠ none ∧
      lookupA t.id s.execTxs = some e0 ∧
      s' = setExecTx (removePool
          (match t.decision with
            | .commit =>
              { s with
                stateCommits := s.stateCommits ++ [(bid, t.id)],
                locks := unlockInputs cs e0.transaction s.locks }
            | .abort => { s with locks := unlockInputs cs e0.transaction s.locks })
          t.id) t.id { e0 with finalDecision := some t.decision }) := by
  cases c with
  | prepare t =>
    simp only [executeCommand] at h
    cases hl : lookupA (Command.prepare t).transactionId s.pool with
    | none => rw [hl] at h; exact Except.noConfusion h
    | some r =>
      simp only [hl] at h
      left
      exact ⟨by simp [hl], fun t' hc => Command.noConfusion hc, (Except.ok.inj h).symm⟩
  | localPrepared t =>
    simp only [executeCommand] at h
    cases hl : lookupA (Command.localPrepared t).transactionId s.pool with
    | none => rw [hl] at h; exact Except.noConfusion h
    | some r =>
      simp only [hl] at h
      left
      exact ⟨by simp [hl], fun t' hc => Command.noConfusion hc, (Except.ok.inj h).symm⟩
  | accept t =>
    simp only [executeCommand] at h
    cases hl : lookupA (Command.accept t).transactionId s.pool with
    | none => rw [hl] at h; exact Except.noConfusion h
    | some r =>
      simp only [hl] at h
      cases he : lookupA t.id s.execTxs with
      | none => rw [he] at h; exact Except.noConfusion h
      | some e0 =>
        simp only [he] at h
        right
        have hl' : lookupA t.id s.pool = some r := hl
        exact ⟨t, e0, rfl, by simp [hl'], he, (Except.ok.inj h).symm⟩

theorem executeCommand_pool_mono (cs : CommitteeShard) (bid : Nat) (s : StoreState)
    (c : Command) (s' : StoreState) (h : executeCommand cs bid s c = .ok s') (id : Nat)
    (hne : lookupA id s'.pool ≠ none) : lookupA id s'.pool = lookupA id s.pool := by
  rcases executeCommand_ok_inv cs bid s c s' h with ⟨-, -, hs'⟩ | ⟨t, e0, -, -, -, hs'⟩
  · rw [hs']
  · have hpool : s'.pool = removeA t.id s.pool := by rw [hs']; cases t.decision <;> rfl
    rw [hpool] at hne ⊢
    by_cases hid : id = t.id
    · subst hid
      rw [lookupA_removeA_self] at hne
      exact absurd rfl hne
    · exact lookupA_removeA_ne _ hid

theorem executeCommand_pool_none (cs : CommitteeShard) (bid : Nat) (s : StoreState)
    (c : Command) (s' : StoreState) (h : executeCommand cs bid s c = .ok s') (id : Nat)
    (hnone : lookupA id s.pool = none) :
    lookupA id s'.pool = none ∧ lookupA id s'.execTxs = lookupA id s.execTxs := by
  rcases executeCommand_ok_inv cs bid s c s' h with ⟨-, -, hs'⟩ | ⟨t, e0, -, hp, -, hs'⟩
  · rw [hs']
    exact ⟨hnone, rfl⟩
  · have hid : id ≠ t.id := by
      intro hh
      rw [hh] at hnone
      exact hp hnone
    have hpool : s'.pool = removeA t.id s.pool := by rw [hs']; cases t.decision <;> rfl
    have hex : s'.execTxs =
        putA t.id { e0 with finalDecision := some t.decision } s.execTxs := by
      rw [hs']; cases t.decision <;> rfl
    constructor
    · rw [hpool, lookupA_removeA_ne _ hid]
      exact hnone
    · rw [hex, lookupA_putA_ne _ _ hid]

theorem executeCommand_sc_mono (cs : CommitteeShard) (bid : Nat) (s : StoreState)
    (c : Command) (s' : StoreState) (h : executeCommand cs bid s c = .ok s') :
    ∀ pr, pr ∈ s.stateCommits → pr ∈ s'.stateCommits := by
  rcases executeCommand_ok_inv cs bid s c s' h with ⟨-, -, hs'⟩ | ⟨t, e0, -, -, -, hs'⟩
  · rw [hs']
    exact fun pr hpr => hpr
  · intro pr hpr
    have hsc : s'.stateCommits = s.stateCommits ∨
        s'.stateCommits = s.stateCommits ++ [(bid, t.id)] := by
      rw [hs']
      cases t.decision
      · right; rfl
      · left; rfl
    rcases hsc with hh | hh <;> rw [hh]
    · exact hpr
    · exact List.mem_append_left _ hpr

theorem executeCommand_sc_new (cs : CommitteeShard) (bid : Nat) (s : StoreState)
    (c : Command) (s' : StoreState) (h : executeCommand cs bid s c = .ok s') :
    ∀ pr ∈ s'.stateCommits,
      pr ∈ s.stateCommits ∨ ∃ t', c = .accept t' ∧ pr = (bid, t'.id) := by
  rcases executeCommand_ok_inv cs bid s c s' h with ⟨-, -, hs'⟩ | ⟨t, e0, hc, -, -, hs'⟩
  · intro pr hpr
    rw [hs'] at hpr
    exact Or.inl hpr
  · intro pr hpr
    have hsc : s'.stateCommits = s.stateCommits ∨
        s'.stateCommits = s.stateCommits ++ [(bid, t.id)] := by
      rw [hs']
      cases t.decision
      · right; rfl
      · left; rfl
    rcases hsc with hh | hh
    · rw [hh] at hpr
      exact Or.inl hpr
    · rw [hh] at hpr
      rcases List.mem_append.mp hpr with hx | hx
      · exact Or.inl hx
      · right
        exact ⟨t, hc, by simpa using hx⟩

theorem executeCommand_sc_pool (cs : CommitteeShard) (bid : Nat) (s : StoreState)
    (c : Command) (s' : StoreState) (h : executeCommand cs bid s c = .ok s') :
    ∀ pr ∈ s'.stateCommits, pr ∈ s.stateCommits ∨ lookupA pr.2 s'.pool = none := by
  rcases executeCommand_ok_inv cs bid s c s' h with ⟨-, -, hs'⟩ | ⟨t, e0, hc, -, -, hs'⟩
  · intro pr hpr
    rw [hs'] at hpr
    exact Or.inl hpr
  · intro pr hpr
    have hpool : s'.pool = removeA t.id s.pool := by rw [hs']; cases t.decision <;> rfl
    have hsc : s'.stateCommits = s.stateCommits ∨
        s'.stateCommits = s.stateCommits ++ [(bid, t.id)] := by
      rw [hs']
      cases t.decision
      · right; rfl
      · left; rfl
    rcases hsc with hh | hh
    · rw [hh] at hpr
      exact Or.inl hpr
    · rw [hh] at hpr
      rcases List.mem_append.mp hpr with hx | hx
      · exact Or.inl hx
      · right
        have hpr2 : pr.2 = t.id := by
          have : pr = (bid, t.id) := by simpa using hx
          rw [this]
        rw [hpr2, hpool, lookupA_removeA_self]

theorem executeCommand_locks_notWrite (cs : CommitteeShard) (bid : Nat) (s : StoreState)
    (c : Command) (s' : StoreState) (h : executeCommand cs bid s c = .ok s')
    (tid i : Nat) (hw : notWriteLockedBy tid (s.locks i)) :
    notWriteLockedBy tid (s'.locks i) := by
  rcases executeCommand_ok_inv cs bid s c s' h with ⟨-, -, hs'⟩ | ⟨t, e0, -, -, -, hs'⟩
  · rw [hs']
    exact hw
  · have hlk : s'.locks = unlockInputs cs e0.transaction s.locks := by
      rw [hs']; cases t.decision <;> rfl
    rw [hlk]
    exact unlockInputs_notWrite _ _ _ _ hw

theorem executeCommand_locks_notRead (cs : CommitteeShard) (bid : Nat) (s : StoreState)
    (c : Command) (s' : StoreState) (h : executeCommand cs bid s c = .ok s')
    (tid i : Nat) (hw : notReadLockedBy tid (s.locks i)) :
    notReadLockedBy tid (s'.locks i) := by
  rcases executeCommand_ok_inv cs bid s c s' h with ⟨-, -, hs'⟩ | ⟨t, e0, -, -, -, hs'⟩
  · rw [hs']
    exact hw
  · have hlk : s'.locks = unlockInputs cs e0.transaction s.locks := by
      rw [hs']; cases t.decision <;> rfl
    rw [hlk]
    exact unlockInputs_notRead _ _ _ _ hw

theorem executeCommand_accept_effects (cs : CommitteeShard) (bid : Nat) (s : StoreState)
    (t : TransactionAtom) (s' : StoreState)
    (h : executeCommand cs bid s (.accept t) = .ok s') :
    lookupA t.id s'.pool = none ∧
    ∃ e0, lookupA t.id s.execTxs = some e0 ∧
      lookupA t.id s'.execTxs = some { e0 with finalDecision := some t.decision } ∧
      (t.decision = .commit → (bid, t.id) ∈ s'.stateCommits) ∧
      (t.decision = .abort → s'.stateCommits = s.stateCommits) ∧
      (∀ i ∈ cs.filterIds (e0.transaction.inputs ++ e0.transaction.filledInputs),
        notWriteLockedBy e0.transaction.id (s'.locks i)) ∧
      (∀ i ∈ cs.filterIds e0.transaction.inputRefs,
        notReadLockedBy e0.transaction.id (s'.locks i)) := by
  rcases executeCommand_ok_inv cs bid s _ s' h with ⟨-, hnacc, -⟩ | ⟨t', e0, hc, -, he, hs'⟩
  · exact absurd rfl (hnacc t)
  · have ht : t' = t := by injection hc with hh; rw [hh]
    subst ht
    have hpool : s'.pool = removeA t'.id s.pool := by rw [hs']; cases t'.decision <;> rfl
    have hex : s'.execTxs =
        putA t'.id { e0 with finalDecision := some t'.decision } s.execTxs := by
      rw [hs']; cases t'.decision <;> rfl
    have hlk : s'.locks = unlockInputs cs e0.transaction s.locks := by
      rw [hs']; cases t'.decision <;> rfl
    refine ⟨by rw [hpool, lookupA_removeA_self], e0, he,
      by rw [hex, lookupA_putA_self], ?_, ?_, ?_, ?_⟩
    · intro hcd
      have hsc : s'.stateCommits = s.stateCommits ++ [(bid, t'.id)] := by
        rw [hs']
        cases hdd : t'.decision
        · rfl
        · rw [hdd] at hcd; exact Decision.noConfusion hcd
      rw [hsc]
      exact List.mem_append_right _ (by simp)
    · intro hcd
      rw [hs']
      cases hdd : t'.decision
      · rw [hdd] at hcd; exact Decision.noConfusion hcd
      · rfl
    · intro i hi
      rw [hlk]
      exact unlockInputs_write_est cs e0.transaction s.locks i hi
    · intro i hi
      rw [hlk]
      exact unlockInputs_read_est cs e0.transaction s.locks i hi

theorem execCmds_ok_cons (cs : CommitteeShard) (bid : Nat) (s s' : StoreState)
    (c : Command) (rest : List Command)
    (h : execCmds cs bid s (c :: rest) = .ok s') :
    ∃ s1, executeCommand cs bid s c = .ok s1 ∧ execCmds cs bid s1 rest = .ok s' := by
  simp only [execCmds] at h
  cases hc : executeCommand cs bid s c with
  | error e => rw [hc] at h; exact Except.noConfusion h
  | ok s1 =>
    rw [hc] at h
    exact ⟨s1, rfl, h⟩

theorem execCmds_pool_mono (cs : CommitteeShard) (bid : Nat) :
    ∀ (cmds : List Command) (s s' : StoreState), execCmds cs bid s cmds = .ok s' →
      ∀ id, lookupA id s'.pool ≠ none → lookupA id s'.pool = lookupA id s.pool := by
  intro cmds
  induction cmds with
  | nil =>
    intro s s' h id hne
    simp only [execCmds] at h
    cases h
    rfl
  | cons c rest ih =>
    intro s s' h id hne
    obtain ⟨s1, hc, hrest⟩ := execCmds_ok_cons _ _ _ _ _ _ h
    have h2 := ih _ _ hrest id hne
    rw [h2]
    exact executeCommand_pool_mono _ _ _ _ _ hc id (by rw [← h2]; exact hne)

theorem execCmds_pool_none (cs : CommitteeShard) (bid : Nat) :
    ∀ (cmds : List Command) (s s' : StoreState), execCmds cs bid s cmds = .ok s' →
      ∀ id, lookupA id s.pool = none →
        lookupA id s'.pool = none ∧ lookupA id s'.execTxs = lookupA id s.execTxs := by
  intro cmds
  induction cmds with
  | nil =>
    intro s s' h id hnone
    simp only [execCmds] at h
    cases h
    exact ⟨hnone, rfl⟩
  | cons c rest ih =>
    intro s s' h id hnone
    obtain ⟨s1, hc, hrest⟩ := execCmds_ok_cons _ _ _ _ _ _ h
    obtain ⟨hn1, he1⟩ := executeCommand_pool_none _ _ _ _ _ hc id hnone
    obtain ⟨hn2, he2⟩ := ih _ _ hrest id hn1
    exact ⟨hn2, he2.trans he1⟩

theorem execCmds_sc_mono (cs : CommitteeShard) (bid : Nat) :
    ∀ (cmds : List Command) (s s' : StoreState), execCmds cs bid s cmds = .ok s' →
      ∀ pr, pr ∈ s.stateCommits → pr ∈ s'.stateCommits := by
  intro cmds
  induction cmds with
  | nil =>
    intro s s' h pr hpr
    simp only [execCmds] at h
    cases h
    exact hpr
  | cons c rest ih =>
    intro s s' h pr hpr
    obtain ⟨s1, hc, hrest⟩ := execCmds_ok_cons _ _ _ _ _ _ h
    exact ih _ _ hrest pr (executeCommand_sc_mono _ _ _ _ _ hc pr hpr)

theorem execCmds_accept_pool (cs : CommitteeShard) (bid : Nat) :
    ∀ (cmds : List Command) (s s' : StoreState), execCmds cs bid s cmds = .ok s' →
      ∀ t : TransactionAtom, Command.accept t ∈ cmds → lookupA t.id s.pool ≠ none := by
  intro cmds
  induction cmds with
  | nil =>
    intro s s' h t hm
    cases hm
  | cons c rest ih =>
    intro s s' h t hm
    obtain ⟨s1, hc, hrest⟩ := execCmds_ok_cons _ _ _ _ _ _ h
    rcases List.mem_cons.mp hm with hm | hm
    · subst hm
      rcases executeCommand_ok_inv _ _ _ _ _ hc with ⟨hp, -, -⟩ | ⟨t', e0, hcc, hp, -, -⟩
      · exact hp
      · have : t' = t := by injection hcc with hh; rw [hh]
        subst this
        exact hp
    · intro hnone
      obtain ⟨hn1, -⟩ := executeCommand_pool_none _ _ _ _ _ hc t.id hnone
      exact ih _ _ hrest t hm hn1

theorem execCmds_sc_new (cs : CommitteeShard) (bid : Nat) :
    ∀ (cmds : List Command) (s s' : StoreState), execCmds cs bid s cmds = .ok s' →
      ∀ pr ∈ s'.stateCommits, pr ∈ s.stateCommits ∨
        ∃ t' : TransactionAtom, Command.accept t' ∈ cmds ∧ pr = (bid, t'.id) := by
  intro cmds
  induction cmds with
  | nil =>
    intro s s' h pr hpr
    simp only [execCmds] at h
    cases h
    exact Or.inl hpr
  | cons c rest ih =>
    intro s s' h pr hpr
    obtain ⟨s1, hc, hrest⟩ := execCmds_ok_cons _ _ _ _ _ _ h
    rcases ih _ _ hrest pr hpr with hin | ⟨t', hmem, hpr'⟩
    · rcases executeCommand_sc_new _ _ _ _ _ hc pr hin with hin0 | ⟨t', hcc, hpr'⟩
      · exact Or.inl hin0
      · exact Or.inr ⟨t', by rw [hcc]; exact List.mem_cons_self _ _, hpr'⟩
    · exact Or.inr ⟨t', List.mem_cons_of_mem _ hmem, hpr'⟩

theorem execCmds_sc_pool (cs : CommitteeShard) (bid : Nat) :
    ∀ (cmds : List Command) (s s' : StoreState), execCmds cs bid s cmds = .ok s' →
      ∀ pr ∈ s'.stateCommits, pr ∈ s.stateCommits ∨ lookupA pr.2 s'.pool = none := by
  intro cmds
  induction cmds with
  | nil =>
    intro s s' h pr hpr
    simp only [execCmds] at h
    cases h
    exact Or.inl hpr
  | cons c rest ih =>
    intro s s' h pr hpr
    obtain ⟨s1, hc, hrest⟩ := execCmds_ok_cons _ _ _ _ _ _ h
    rcases ih _ _ hrest pr hpr with hin | hnone
    · rcases executeCommand_sc_pool _ _ _ _ _ hc pr hin with hin0 | hnone0
      · exact Or.inl hin0
      · exact Or.inr (execCmds_pool_none _ _ _ _ _ hrest pr.2 hnone0).1
    · exact Or.inr hnone

theorem execCmds_locks_notWrite (cs : CommitteeShard) (bid : Nat) :
    ∀ (cmds : List Command) (s s' : StoreState), execCmds cs bid s cmds = .ok s' →
      ∀ tid i, notWriteLockedBy tid (s.locks i) → notWriteLockedBy tid (s'.locks i) := by
  intro cmds
  induction cmds with
  | nil =>
    intro s s' h tid i hw
    simp only [execCmds] at h
    cases h
    exact hw
  | cons c rest ih =>
    intro s s' h tid i hw
    obtain ⟨s1, hc, hrest⟩ := execCmds_ok_cons _ _ _ _ _ _ h
    exact ih _ _ hrest tid i (executeCommand_locks_notWrite _ _ _ _ _ hc tid i hw)

theorem execCmds_locks_notRead (cs : CommitteeShard) (bid : Nat) :
    ∀ (cmds : List Command) (s s' : StoreState), execCmds cs bid s cmds = .ok s' →
      ∀ tid i, notReadLockedBy tid (s.locks i) → notReadLockedBy tid (s'.locks i) := by
  intro cmds
  induction cmds with
  | nil =>
    intro s s' h tid i hw
    simp only [execCmds] at h
    cases h
    exact hw
  | cons c rest ih =>
    intro s s' h tid i hw
    obtain ⟨s1, hc, hrest⟩ := execCmds_ok_cons _ _ _ _ _ _ h
    exact ih _ _ hrest tid i (executeCommand_locks_notRead _ _ _ _ _ hc tid i hw)

theorem execCmds_accept_effects (cs : CommitteeShard) (bid : Nat) :
    ∀ (cmds : List Command) (s s' : StoreState), execCmds cs bid s cmds = .ok s' →
      ∀ t : TransactionAtom, Command.accept t ∈ cmds →
        lookupA t.id s'.pool = none ∧
        ∃ e : ExecutedTransaction, lookupA t.id s'.execTxs = some e ∧
          e.finalDecision = some t.decision ∧
          (t.decision = .commit → (bid, t.id) ∈ s'.stateCommits) ∧
          (t.decision = .abort → (bid, t.id) ∉ s.stateCommits →
            (bid, t.id) ∉ s'.stateCommits) ∧
          (∀ i ∈ cs.filterIds (e.transaction.inputs ++ e.transaction.filledInputs),
            notWriteLockedBy e.transaction.id (s'.locks i)) ∧
          (∀ i ∈ cs.filterIds e.transaction.inputRefs,
            notReadLockedBy e.transaction.id (s'.locks i)) := by
  intro cmds
  induction cmds with
  | nil =>
    intro s s' h t hm
    cases hm
  | cons c rest ih =>
    intro s s' h t hm
    obtain ⟨s1, hc, hrest⟩ := execCmds_ok_cons _ _ _ _ _ _ h
    rcases List.mem_cons.mp hm with hm0 | hm0
    · subst hm0
      obtain ⟨hpn, e0, he0, he1, hcm, hab, hlw, hlr⟩ :=
        executeCommand_accept_effects _ _ _ _ _ hc
      obtain ⟨hpn', hexp⟩ := execCmds_pool_none _ _ _ _ _ hrest t.id hpn
      refine ⟨hpn', { e0 with finalDecision := some t.decision }, by rw [hexp, he1],
        rfl, ?_, ?_, ?_, ?_⟩
      · intro hcd
        exact execCmds_sc_mono _ _ _ _ _ hrest _ (hcm hcd)
      · intro hcd hnin hin
        rcases execCmds_sc_new _ _ _ _ _ hrest _ hin with hin1 | ⟨t', hmem, hpr⟩
        · rw [hab hcd] at hin1
          exact hnin hin1
        · have ht' : t'.id = t.id := by
            have := congrArg Prod.snd hpr
            simpa using this.symm
          have := execCmds_accept_pool _ _ _ _ _ hrest t' hmem
          rw [ht'] at this
          exact this hpn
      · intro i hi
        exact execCmds_locks_notWrite _ _ _ _ _ hrest _ i (hlw i hi)
      · intro i hi
        exact execCmds_locks_notRead _ _ _ _ _ hrest _ i (hlr i hi)
    · obtain ⟨hpn', e, hee, hef, hcm, hab, hlw, hlr⟩ := ih _ _ hrest t hm0
      refine ⟨hpn', e, hee, hef, hcm, ?_, hlw, hlr⟩
      intro hcd hnin
      refine hab hcd ?_
      intro hin1
      rcases executeCommand_sc_new _ _ _ _ _ hc _ hin1 with hin0 | ⟨t'', hcc, hpr⟩
      · exact hnin hin0
      · have ht'' : t''.id = t.id := by
          have := congrArg Prod.snd hpr
          simpa using this.symm
        rcases executeCommand_ok_inv _ _ _ _ _ hc with ⟨-, hnacc, -⟩ | ⟨t3, e3, hc3, -, -, hs1⟩
        · rw [hcc] at hnacc
          exact hnacc t'' rfl
        · have ht3 : t3 = t'' := by
            rw [hcc] at hc3
            injection hc3 with hh
            rw [hh]
          subst ht3
          have hpool1 : s1.pool = removeA t3.id s.pool := by
            rw [hs1]; cases t3.decision <;> rfl
          have hnone1 : lookupA t.id s1.pool = none := by
            rw [hpool1, ← ht'', lookupA_removeA_self]
          exact execCmds_accept_pool _ _ _ _ _ hrest t hm0 hnone1

theorem onCommit_succ_ok_inv (cs : CommitteeShard) (le n : Nat) (s : StoreState)
    (b : Block) (s' : StoreState) (l : List Block)
    (h : onCommit cs le (n + 1) s b = .ok (s', l)) :
    (¬le < b.height ∧ s' = s ∧ l = []) ∨
    (le < b.height ∧ ∃ parent sa la,
      lookupA b.parent s.blocks = some parent ∧
      onCommit cs le n s parent = .ok (sa, la) ∧
      executeBlock cs sa b = .ok s' ∧ l = la ++ [b]) := by
  simp only [onCommit] at h
  by_cases hlt : le < b.height
  · rw [if_pos hlt] at h
    cases hpar : lookupA b.parent s.blocks with
    | none => rw [hpar] at h; exact Except.noConfusion h
    | some parent =>
      simp only [hpar] at h
      cases hrec : onCommit cs le n s parent with
      | error e => simp only [hrec] at h; exact Except.noConfusion h
      | ok q =>
        obtain ⟨sa, la⟩ := q
        simp only [hrec] at h
        cases hex : executeBlock cs sa b with
        | error e => simp only [hex] at h; exact Except.noConfusion h
        | ok s2 =>
          simp only [hex, Except.ok.injEq, Prod.mk.injEq] at h
          obtain ⟨hs, hl⟩ := h
          refine Or.inr ⟨hlt, parent, sa, la, rfl, hrec, ?_, hl.symm⟩
          rw [hs] at hex
          exact hex
  · rw [if_neg hlt] at h
    simp only [Except.ok.injEq, Prod.mk.injEq] at h
    exact Or.inl ⟨hlt, h.1.symm, h.2.symm⟩

theorem onCommit_sc_pool (cs : CommitteeShard) (le : Nat) :
    ∀ (fuel : Nat) (s : StoreState) (b : Block) (s' : StoreState) (l : List Block),
      onCommit cs le fuel s b = .ok (s', l) →
      ∀ pr ∈ s'.stateCommits, pr ∈ s.stateCommits ∨ lookupA pr.2 s'.pool = none := by
  intro fuel
  induction fuel with
  | zero => intro s b s' l h; exact Except.noConfusion h
  | succ n ih =>
    intro s b s' l h
    rcases onCommit_succ_ok_inv _ _ _ _ _ _ _ h with ⟨-, rfl, -⟩ |
      ⟨-, parent, sa, la, -, hrec, hex, -⟩
    · exact fun pr hpr => Or.inl hpr
    · intro pr hpr
      rcases execCmds_sc_pool _ _ _ _ _ hex pr hpr with hin | hnone
      · rcases ih _ _ _ _ hrec pr hin with hin0 | hnone0
        · exact Or.inl hin0
        · exact Or.inr (execCmds_pool_none _ _ _ _ _ hex pr.2 hnone0).1
      · exact Or.inr hnone

theorem onCommit_commit_spec (cs : CommitteeShard) (le : Nat) :
    ∀ (fuel : Nat) (s : StoreState) (b : Block) (s' : StoreState)
      (committed : List Block),
      onCommit cs le fuel s b = .ok (s', committed) →
      CommitSpec cs le s s' b committed := by
  intro fuel
  induction fuel with
  | zero => intro s b s' committed h; exact Except.noConfusion h
  | succ n ih =>
    intro s b s' committed h
    rcases onCommit_succ_ok_inv _ _ _ _ _ _ _ h with ⟨hnlt, rfl, rfl⟩ |
      ⟨hlt, parent, sa, la, hpar, hrec, hex, rfl⟩
    · refine ⟨fun _ => ⟨rfl, rfl⟩, fun hlt' => absurd hlt' hnlt, ?_, ?_, ?_, ?_⟩
      · intro x hx
        cases hx
      · exact List.chain'_nil
      · intro c hc
        simp at hc
      · intro x hx
        cases hx
    · obtain ⟨IH0, IH1, IH2, IH3, IH4, IH5⟩ := ih _ _ _ _ hrec
      refine ⟨?_, ?_, ?_, ?_, ?_, ?_⟩
      · intro hle
        exact absurd hlt (not_lt.mpr hle)
      · intro _
        exact ⟨by simp, by rw [List.getLast?_concat]⟩
      · intro x hx
        rcases List.mem_append.mp hx with hx | hx
        · exact IH2 x hx
        · have : x = b := by simpa using hx
          rw [this]
          exact hlt
      · rw [List.chain'_append]
        refine ⟨IH3, List.chain'_singleton _, ?_⟩
        intro x hx y hy
        have hyb : y = b := by
          simp at hy
          exact hy.symm
        rw [hyb]
        by_cases hple : le < parent.height
        · obtain ⟨-, hlast⟩ := IH1 hple
          rw [hlast] at hx
          have hxp : x = parent := by
            simp at hx
            exact hx.symm
          rw [hxp]
          exact hpar
        · obtain ⟨hla, -⟩ := IH0 (not_lt.mp hple)
          rw [hla] at hx
          simp at hx
      · intro c hc
        cases hla : la with
        | nil =>
          rw [hla] at hc
          have : c = b := by
            simp at hc
            exact hc.symm
          rw [this]
          refine ⟨parent, hpar, ?_⟩
          by_cases hple : le < parent.height
          · obtain ⟨hne, -⟩ := IH1 hple
            exact absurd hla hne
          · exact not_lt.mp hple
        | cons hd tl =>
          rw [hla] at hc
          simp only [List.cons_append, List.head?_cons, Option.some.injEq] at hc
          refine IH4 c ?_
          rw [hla, List.head?_cons, hc]
      · intro x hx t htm
        have hex' : execCmds cs b.id sa b.commands = .ok s' := hex
        rcases List.mem_append.mp hx with hx0 | hx0
        · obtain ⟨hpn, e, hee, hef, hcm, hab, hlw, hlr⟩ := IH5 x hx0 t htm
          obtain ⟨hpn2, hexp⟩ := execCmds_pool_none _ _ _ _ _ hex' t.id hpn
          refine ⟨hpn2, e, by rw [hexp]; exact hee, hef, ?_, ?_, ?_, ?_⟩
          · intro hcd
            exact execCmds_sc_mono _ _ _ _ _ hex' _ (hcm hcd)
          · intro hcd hnin hin2
            rcases execCmds_sc_new _ _ _ _ _ hex' _ hin2 with hin1 | ⟨t', hmem, hpr⟩
            · exact hab hcd hnin hin1
            · have ht' : t'.id = t.id := by
                have := congrArg Prod.snd hpr
                simpa using this.symm
              have := execCmds_accept_pool _ _ _ _ _ hex' t' hmem
              rw [ht'] at this
              exact this hpn
          · intro i hi
            exact execCmds_locks_notWrite _ _ _ _ _ hex' _ i (hlw i hi)
          · intro i hi
            exact execCmds_locks_notRead _ _ _ _ _ hex' _ i (hlr i hi)
        · have hxb : x = b := by simpa using hx0
          subst hxb
          obtain ⟨hpn, e, hee, hef, hcm, hab, hlw, hlr⟩ :=
            execCmds_accept_effects _ _ _ _ _ hex' t htm
          have hsome : lookupA t.id sa.pool ≠ none :=
            execCmds_accept_pool _ _ _ _ _ hex' t htm
          refine ⟨hpn, e, hee, hef, hcm, ?_, hlw, hlr⟩
          intro hcd hnin
          refine hab hcd ?_
          intro hin
          rcases onCommit_sc_pool _ _ _ _ _ _ _ hrec _ hin with hin0 | hnone
          · exact hnin hin0
          · exact hsome hnone

theorem updateHighQc_blocks (s : StoreState) (qc : QuorumCertificate) :
    (updateHighQc s qc).blocks = s.blocks := by
  unfold updateHighQc
  split
  · rfl
  · split <;> rfl

theorem updateHighQc_lastExecuted (s : StoreState) (qc : QuorumCertificate) :
    (updateHighQc s qc).lastExecuted = s.lastExecuted := by
  unfold updateHighQc
  split
  · rfl
  · split <;> rfl

theorem updateHighQc_stateCommits (s : StoreState) (qc : QuorumCertificate) :
    (updateHighQc s qc).stateCommits = s.stateCommits := by
  unfold updateHighQc
  split
  · rfl
  · split <;> rfl

theorem updateNodes_threeChain_inv (cs : CommitteeShard) (s : StoreState) (b : Block)
    (le : Nat) (s' : StoreState) (committed : List Block)
    (h3 : threeChainCond s b = true)
    (hle : lookupA b.epoch s.lastExecuted = some le)
    (h : updateNodes cs s b = .ok (s', committed)) :
    ∃ s1 s2,
      s1.blocks = s.blocks ∧
      s1.stateCommits = s.stateCommits ∧
      onCommit cs le (b.height + 1) s1 b = .ok (s2, committed) ∧
      s' = setLastExecuted s2 b.epoch b.height := by
  unfold threeChainCond at h3
  cases h1 : lookupA b.justify.blockId s.blocks with
  | none => simp only [h1] at h3; exact Bool.noConfusion h3
  | some commitNode =>
    simp only [h1] at h3
    cases h2 : lookupA commitNode.justify.blockId s.blocks with
    | none => simp only [h2] at h3; exact Bool.noConfusion h3
    | some precommitNode =>
      simp only [h2] at h3
      have hcond : commitNode.parent = precommitNode.id ∧
          precommitNode.parent = precommitNode.justify.blockId := of_decide_eq_true h3
      simp only [updateNodes, updateHighQc_blocks, h1, h2] at h
      cases hlk : lookupA b.epoch (updateHighQc s b.justify).lockedBlock with
      | none => simp only [hlk] at h; exact Except.noConfusion h
      | some locked =>
        simp only [hlk] at h
        rw [if_pos hcond] at h
        by_cases hlb : locked.2 < precommitNode.height
        · rw [if_pos hlb] at h
          have hs1le : lookupA b.epoch
              (setLockedBlock (updateHighQc s b.justify) b.epoch
                (precommitNode.id, precommitNode.height)).lastExecuted = some le := by
            show lookupA b.epoch (updateHighQc s b.justify).lastExecuted = some le
            rw [updateHighQc_lastExecuted]
            exact hle
          simp only [hs1le] at h
          cases hoc : onCommit cs le (b.height + 1)
              (setLockedBlock (updateHighQc s b.justify) b.epoch
                (precommitNode.id, precommitNode.height)) b with
          | error e => simp only [hoc] at h; exact Except.noConfusion h
          | ok q =>
            obtain ⟨s2, l2⟩ := q
            simp only [hoc, Except.ok.injEq, Prod.mk.injEq] at h
            obtain ⟨hs', hl⟩ := h
            refine ⟨setLockedBlock (updateHighQc s b.justify) b.epoch
                (precommitNode.id, precommitNode.height), s2,
              updateHighQc_blocks s b.justify,
              updateHighQc_stateCommits s b.justify, ?_, hs'.symm⟩
            rw [hl] at hoc
            exact hoc
        · rw [if_neg hlb] at h
          have hs1le : lookupA b.epoch (updateHighQc s b.justify).lastExecuted = some le := by
            rw [updateHighQc_lastExecuted]
            exact hle
          simp only [hs1le] at h
          cases hoc : onCommit cs le (b.height + 1) (updateHighQc s b.justify) b with
          | error e => simp only [hoc] at h; exact Except.noConfusion h
          | ok q =>
            obtain ⟨s2, l2⟩ := q
            simp only [hoc, Except.ok.injEq, Prod.mk.injEq] at h
            obtain ⟨hs', hl⟩ := h
            refine ⟨_, s2, updateHighQc_blocks s b.justify,
              updateHighQc_stateCommits s b.justify, ?_, hs'.symm⟩
            rw [hl] at hoc
            exact hoc

/-- C5: amended three-chain commit property.  `update_nodes` runs `on_commit`
on the processed block `b*` itself (not on the three-chain tail `b`), so when
the three-chain condition holds and the `LastExecuted` marker `le` is below
the processed block's height, the blocks committed are exactly the
parent-chain ancestors of the processed block with height above `le`, up to
and including the processed block, in ascending chain order; for every
`Accept(t)` command of a committed block the substate diff is applied through
the state manager iff the decision is Commit, the transaction's Write locks
over its inputs and Read locks over its input refs are released, the pool
record is removed, and the executed transaction is stamped with the final
decision; and `LastExecuted` is advanced to the processed block's height. -/
theorem update_nodes_commit_spec (cs : CommitteeShard) (s : StoreState) (b : Block)
    (le : Nat) (s' : StoreState) (committed : List Block)
    (h3 : threeChainCond s b = true)
    (hle : lookupA b.epoch s.lastExecuted = some le)
    (hlt : le < b.height)
    (h : updateNodes cs s b = .ok (s', committed)) :
    CommitSpec cs le s s' b committed ∧
      lookupA b.epoch s'.lastExecuted = some b.height := by
  obtain ⟨s1, s2, hblocks, hsc, hoc, rfl⟩ :=
    updateNodes_threeChain_inv cs s b le s' committed h3 hle h
  have hcs := onCommit_commit_spec cs le (b.height + 1) s1 b s2 committed hoc
  obtain ⟨h0, hc1, hc2, hchain, hhead, heff⟩ := hcs
  rw [hblocks] at hchain hhead
  rw [hsc] at heff
  refine ⟨⟨fun hble => absurd hlt (not_lt.mpr hble), hc1, hc2, hchain, hhead, ?_⟩, ?_⟩
  · exact heff
  · show lookupA b.epoch (putA b.epoch b.height s2.lastExecuted) = some b.height
    exact lookupA_putA_self _ _ _

theorem update_nodes_commit_spec_witness :
    threeChainCond c5wStore c5wBlock = true ∧
    lookupA 0 c5wStore.lastExecuted = some 0 ∧
    (0 : Nat) < c5wBlock.height ∧
    updateNodes c5wShard c5wStore c5wBlock = .ok (c5wSFinal, [c5wBlock]) ∧
    (CommitSpec c5wShard 0 c5wStore c5wSFinal c5wBlock [c5wBlock] ∧
      lookupA 0 c5wSFinal.lastExecuted = some 1) :=
  ⟨by decide, rfl, by decide, rfl,
    update_nodes_commit_spec c5wShard c5wStore c5wBlock 0 c5wSFinal [c5wBlock]
      (by decide) rfl (by decide) rfl⟩

end TariDan
